import Mathlib

set_option linter.unusedVariables false

namespace BowlSpec

/-!
Shallow embedding of the bowl/cheuph tree-rendering engine.

Styled text is from src/cheuph/markup.py: a Chunk is a run of characters
sharing one attribute map, and an AttributedText value is the list stored in
the private chunks field of the Python class. Python strings become List Char.
The attribute maps only matter to the chunk operations through equality tests
and wholesale copying, so this part is parametric in the attribute type.
Python dict equality is a decidable equivalence, hence the DecidableEq bound.
-/

structure Chunk (α : Type) where
  text : List Char
  attributes : α
deriving DecidableEq, Repr, Inhabited

/-- An AttributedText is represented by its list of chunks. -/
abbrev AttributedText (α : Type) := List (Chunk α)

variable {α : Type} [DecidableEq α]

/-- Chunk join from markup.py: merge two chunks when their attribute maps are
equal, otherwise None. -/
def Chunk.join (c d : Chunk α) : Option (Chunk α) :=
  if c.attributes = d.attributes then some ⟨c.text ++ d.text, c.attributes⟩ else none

/-- Loop body of join chunks: cur is the running current chunk of the
source loop, the list argument is the remaining chunks. -/
def joinLoop (cur : Chunk α) : List (Chunk α) → List (Chunk α)
  | [] => [cur]
  | c :: cs =>
    match Chunk.join cur c with
    | none => cur :: joinLoop c cs
    | some j => joinLoop j cs

/-- Chunk.join_chunks from markup.py. -/
def joinChunks : List (Chunk α) → List (Chunk α)
  | [] => []
  | c :: cs => joinLoop c cs

/-- AttributedText.from_chunks. -/
def fromChunks (l : List (Chunk α)) : AttributedText α := joinChunks l

/-- The AttributedText constructor applied to a text and an attribute map:
it stores a single chunk, even when the text is empty. -/
def AT (text : List Char) (attributes : α) : AttributedText α := [⟨text, attributes⟩]

/-- The AttributedText constructor with the text argument omitted: no chunks. -/
def ATempty : AttributedText α := []

/-- Python len of an AttributedText: the sum of the chunk lengths. -/
def atLength (s : AttributedText α) : Nat := (s.map (fun c => c.text.length)).sum

/-- The text property: concatenation of the chunk texts. -/
def atText (s : AttributedText α) : List Char := s.flatMap (fun c => c.text)

/-- AttributedText.__add__: concatenate the chunk lists, then from_chunks. -/
def atAdd (s t : AttributedText α) : AttributedText α := fromChunks (s ++ t)

/-- Python list repetition (lst * n), which is empty for n below one. -/
def pyListMul {β : Type} (l : List β) (n : Int) : List β :=
  (List.replicate n.toNat l).flatten

/-- AttributedText.__mul__: repeat the chunk list, then from_chunks. -/
def atMul (s : AttributedText α) (n : Int) : AttributedText α :=
  fromChunks (pyListMul s n)

/-- The chunk loop of the private slice method of AttributedText, for a slice
with no step. The source iterates over the chunks keeping a cursor position
pos and works with chunk_start = start - pos and chunk_stop = stop - pos;
here a and b are those two relative bounds, and the recursive call shifts
them by the chunk length exactly as advancing pos does. Python string slices
with the nonnegative bounds used by the branches become take and drop. -/
def sliceGo (a b : Int) : AttributedText α → AttributedText α
  | [] => []
  | c :: cs =>
    let L : Int := c.text.length
    let rest := sliceGo (a - L) (b - L) cs
    if b ≤ 0 ∨ a ≥ L then rest
    else if a < 0 ∧ b > L then c :: rest
    else if a < 0 then ⟨c.text.take b.toNat, c.attributes⟩ :: rest
    else if b > L then ⟨c.text.drop a.toNat, c.attributes⟩ :: rest
    else ⟨(c.text.take b.toNat).drop a.toNat, c.attributes⟩ :: rest

/-- The private slice method of AttributedText: normalize the optional bounds
exactly as the source does (None becomes 0 or len(self), a negative bound has
len(self) added), then run the chunk loop. -/
def atSlice (s : AttributedText α) (start? stop? : Option Int) : AttributedText α :=
  let n : Int := atLength s
  let start := match start? with
    | none => 0
    | some v => if v < 0 then n + v else v
  let stop := match stop? with
    | none => n
    | some v => if v < 0 then n + v else v
  sliceGo start stop s

/-- AttributedText.__getitem__ with a slice key: join_chunks of the slice,
then from_chunks (which joins once more). -/
def atGetItem (s : AttributedText α) (start? stop? : Option Int) : AttributedText α :=
  fromChunks (joinChunks (atSlice s start? stop?))

/-! Proof devices for the slice/concat identity (claim C9). The chunk lists
reachable through the Python class are exactly the join-normalized ones:
every constructor and operation of AttributedText builds its chunk list with
from_chunks, whose output never has two adjacent chunks with equal attribute
maps. Sep states that normal form. takeC and dropC are clean recursions that
the slice loop agrees with on lists of nonempty chunks. -/

/-- Adjacent chunks always carry different attribute maps. -/
inductive Sep : List (Chunk α) → Prop
  | nil : Sep []
  | single (c : Chunk α) : Sep [c]
  | cons {c d : Chunk α} {l : List (Chunk α)} :
      c.attributes ≠ d.attributes → Sep (d :: l) → Sep (c :: d :: l)

theorem Sep.tail {c : Chunk α} {l : List (Chunk α)} (h : Sep (c :: l)) : Sep l := by
  cases h with
  | single _ => exact Sep.nil
  | cons _ h => exact h

/-- Chunkwise prefix of length b (for chunk lists with no empty chunk this is
what the slice loop computes for a slice reaching the left edge). -/
def takeC (b : Int) : AttributedText α → AttributedText α
  | [] => []
  | c :: cs =>
    if b ≤ 0 then []
    else if b < (c.text.length : Int) then [⟨c.text.take b.toNat, c.attributes⟩]
    else c :: takeC (b - c.text.length) cs

/-- Chunkwise suffix from position a (what the slice loop computes for a slice
reaching the right edge). -/
def dropC (a : Int) : AttributedText α → AttributedText α
  | [] => []
  | c :: cs =>
    if a ≥ (c.text.length : Int) then dropC (a - c.text.length) cs
    else if a ≤ 0 then c :: dropC (a - c.text.length) cs
    else ⟨c.text.drop a.toNat, c.attributes⟩ :: dropC (a - c.text.length) cs

theorem takeC_nonpos (s : AttributedText α) {b : Int} (hb : b ≤ 0) : takeC b s = [] := by
  cases s with
  | nil => rfl
  | cons c cs => simp [takeC, hb]

theorem dropC_nonpos : ∀ (s : AttributedText α), (∀ c ∈ s, c.text ≠ []) →
    ∀ {a : Int}, a ≤ 0 → dropC a s = s
  | [], _, _, _ => rfl
  | c :: cs, hne, a, ha => by
    have hL : 0 < (c.text.length : Int) := by
      have h0 := hne c (by simp)
      have : c.text.length ≠ 0 := fun h => h0 (List.length_eq_zero.mp h)
      omega
    rw [dropC, if_neg (by omega), if_pos ha,
      dropC_nonpos cs (fun d hd => hne d (by simp [hd])) (by omega)]

theorem length_pos_of_ne_nil {c : Chunk α} (h : c.text ≠ []) :
    0 < (c.text.length : Int) := by
  have : c.text.length ≠ 0 := fun h0 => h (List.length_eq_zero.mp h0)
  omega

/-- On lists of nonempty chunks, a slice whose left bound has already passed
the current position computes the chunkwise prefix. -/
theorem sliceGo_eq_takeC : ∀ (s : AttributedText α) (a b : Int), a ≤ 0 →
    (∀ c ∈ s, c.text ≠ []) → sliceGo a b s = takeC b s
  | [], _, _, _, _ => rfl
  | c :: cs, a, b, ha, hne => by
    have hL : 0 < (c.text.length : Int) := length_pos_of_ne_nil (hne c (by simp))
    have hrec := sliceGo_eq_takeC cs (a - c.text.length) (b - c.text.length)
      (by omega) (fun d hd => hne d (by simp [hd]))
    rw [sliceGo, hrec]
    by_cases hb : b ≤ 0
    · rw [if_pos (Or.inl hb), takeC_nonpos _ hb, takeC_nonpos _ (by omega)]
    · rw [if_neg (by omega), takeC, if_neg hb]
      by_cases hbL : b < (c.text.length : Int)
      · rw [if_pos hbL, if_neg (by omega : ¬ (a < 0 ∧ b > (c.text.length : Int)))]
        by_cases ha0 : a < 0
        · rw [if_pos ha0, takeC_nonpos _ (by omega)]
        · have ha' : a = 0 := by omega
          rw [if_neg ha0, if_neg (by omega), takeC_nonpos _ (by omega)]
          simp [ha']
      · rw [if_neg hbL]
        by_cases hbL' : b > (c.text.length : Int)
        · by_cases ha0 : a < 0
          · rw [if_pos ⟨ha0, hbL'⟩]
          · have ha' : a = 0 := by omega
            rw [if_neg (by omega), if_neg (by omega), if_pos hbL', ha']
            simp
        · have hbe : b = (c.text.length : Int) := by omega
          rw [if_neg (by omega)]
          by_cases ha0 : a < 0
          · rw [if_pos ha0, hbe]
            simp [Int.toNat_natCast, List.take_length]
          · have ha' : a = 0 := by omega
            rw [if_neg ha0, if_neg (by omega), ha', hbe]
            simp [Int.toNat_natCast, List.take_length]

/-- On lists of nonempty chunks, a slice whose right bound covers the whole
remaining text computes the chunkwise suffix. -/
theorem sliceGo_eq_dropC : ∀ (s : AttributedText α) (a b : Int),
    (atLength s : Int) ≤ b → (∀ c ∈ s, c.text ≠ []) → sliceGo a b s = dropC a s
  | [], _, _, _, _ => rfl
  | c :: cs, a, b, hb, hne => by
    have hL : 0 < (c.text.length : Int) := length_pos_of_ne_nil (hne c (by simp))
    have hlen : (atLength (c :: cs) : Int) = (c.text.length : Int) + atLength cs := by
      simp [atLength]
    have hrec := sliceGo_eq_dropC cs (a - c.text.length) (b - c.text.length)
      (by omega) (fun d hd => hne d (by simp [hd]))
    rw [sliceGo, hrec, dropC]
    have hbpos : 0 < b := by omega
    by_cases haL : a ≥ (c.text.length : Int)
    · rw [if_pos (Or.inr haL), if_pos haL]
    · rw [if_neg haL, if_neg (by omega)]
      by_cases ha0 : a < 0
      · by_cases hbL : b > (c.text.length : Int)
        · rw [if_pos ⟨ha0, hbL⟩, if_pos (by omega)]
        · have hbe : b = (c.text.length : Int) := by omega
          rw [if_neg (by omega), if_pos ha0, if_pos (by omega), hbe]
          simp [Int.toNat_natCast, List.take_length]
      · by_cases ha00 : a = 0
        · subst ha00
          by_cases hbL : b > (c.text.length : Int)
          · rw [if_neg (by omega), if_neg (by omega), if_pos hbL, if_pos (by omega)]
            simp
          · have hbe : b = (c.text.length : Int) := by omega
            rw [if_neg (by omega), if_neg (by omega), if_neg (by omega), if_pos (by omega), hbe]
            simp [Int.toNat_natCast, List.take_length]
        · have hapos : 0 < a := by omega
          by_cases hbL : b > (c.text.length : Int)
          · simp only [if_neg (show ¬ (b ≤ 0 ∨ a ≥ (c.text.length : Int)) by omega),
              if_neg (show ¬ (a < 0 ∧ b > (c.text.length : Int)) by omega),
              if_neg (show ¬ a < 0 by omega), if_pos hbL,
              if_neg (show ¬ a ≥ (c.text.length : Int) by omega),
              if_neg (show ¬ a ≤ 0 by omega)]
          · have hbe : b = (c.text.length : Int) := by omega
            simp only [if_neg (show ¬ (b ≤ 0 ∨ a ≥ (c.text.length : Int)) by omega),
              if_neg (show ¬ (a < 0 ∧ b > (c.text.length : Int)) by omega),
              if_neg (show ¬ a < 0 by omega), if_neg hbL,
              if_neg (show ¬ a ≥ (c.text.length : Int) by omega),
              if_neg (show ¬ a ≤ 0 by omega), hbe]
            simp [Int.toNat_natCast, List.take_length]

theorem joinLoop_cons_eq (cur c : Chunk α) (cs : List (Chunk α)) :
    joinLoop cur (c :: cs) =
      match Chunk.join cur c with
      | none => cur :: joinLoop c cs
      | some j => joinLoop j cs := rfl

theorem joinLoop_ne_nil (cur : Chunk α) : ∀ (l : List (Chunk α)), joinLoop cur l ≠ []
  | [] => by simp [joinLoop]
  | c :: cs => by
    rw [joinLoop]
    match Chunk.join cur c with
    | none => simp
    | some j => exact joinLoop_ne_nil j cs

theorem joinLoop_sep : ∀ {l : List (Chunk α)} {cur : Chunk α}, Sep (cur :: l) →
    joinLoop cur l = cur :: l
  | [], cur, _ => rfl
  | c :: cs, cur, h => by
    have hne : cur.attributes ≠ c.attributes := by cases h with | cons hne _ => exact hne
    have htail : Sep (c :: cs) := h.tail
    rw [joinLoop]
    simp only [Chunk.join, if_neg hne]
    rw [joinLoop_sep htail]

theorem joinChunks_sep {l : List (Chunk α)} (h : Sep l) : joinChunks l = l := by
  cases l with
  | nil => rfl
  | cons c cs => exact joinLoop_sep h

/-- The chunkwise prefix of a normalized list is normalized, and when nonempty
its head carries the attribute map of the original head. -/
theorem takeC_sep : ∀ (s : AttributedText α) (b : Int), Sep s →
    Sep (takeC b s) ∧ ((takeC b s).head?.map Chunk.attributes = none ∨
      (takeC b s).head?.map Chunk.attributes = s.head?.map Chunk.attributes)
  | [], b, _ => ⟨Sep.nil, Or.inl rfl⟩
  | c :: cs, b, hsep => by
    rw [takeC]
    by_cases hb : b ≤ 0
    · rw [if_pos hb]; exact ⟨Sep.nil, Or.inl rfl⟩
    · rw [if_neg hb]
      by_cases hbL : b < (c.text.length : Int)
      · rw [if_pos hbL]
        exact ⟨Sep.single _, Or.inr rfl⟩
      · rw [if_neg hbL]
        obtain ⟨ihSep, ihHead⟩ := takeC_sep cs (b - c.text.length) hsep.tail
        refine ⟨?_, Or.inr rfl⟩
        match htc : takeC (b - (c.text.length : Int)) cs with
        | [] => exact Sep.single _
        | d :: ds =>
          rw [htc] at ihSep ihHead
          rcases ihHead with h0 | hh
          · simp at h0
          · match cs, hsep with
            | e :: es, hsep =>
              have hde : d.attributes = e.attributes := by
                simp only [List.head?, Option.map] at hh
                exact Option.some.inj hh
              have hce : c.attributes ≠ e.attributes := by
                cases hsep with | cons hne _ => exact hne
              exact Sep.cons (by rw [hde]; exact hce) ihSep

/-- The chunkwise suffix of a normalized list of nonempty chunks is
normalized. -/
theorem dropC_sep : ∀ (s : AttributedText α) (a : Int), Sep s →
    (∀ c ∈ s, c.text ≠ []) → Sep (dropC a s)
  | [], _, _, _ => Sep.nil
  | c :: cs, a, hsep, hne => by
    have hL : 0 < (c.text.length : Int) := length_pos_of_ne_nil (hne c (by simp))
    have hnecs : ∀ d ∈ cs, d.text ≠ [] := fun d hd => hne d (by simp [hd])
    rw [dropC]
    by_cases haL : a ≥ (c.text.length : Int)
    · rw [if_pos haL]; exact dropC_sep cs _ hsep.tail hnecs
    · rw [if_neg haL]
      by_cases ha0 : a ≤ 0
      · rw [if_pos ha0, dropC_nonpos cs hnecs (by omega)]; exact hsep
      · rw [if_neg ha0, dropC_nonpos cs hnecs (by omega)]
        cases hsep with
        | single _ => exact Sep.single _
        | cons hne' h => exact Sep.cons hne' h

/-- Head attribute map of the concatenated prefix and suffix: when nonempty it
is the head attribute map of the original list. -/
theorem concat_head_attr : ∀ (s : AttributedText α) (k : Int), (∀ c ∈ s, c.text ≠ []) →
    (takeC k s ++ dropC k s = [] ∧ s = []) ∨
    ((takeC k s ++ dropC k s).head?.map Chunk.attributes = s.head?.map Chunk.attributes)
  | [], k, _ => Or.inl ⟨rfl, rfl⟩
  | c :: cs, k, hne => by
    have hL : 0 < (c.text.length : Int) := length_pos_of_ne_nil (hne c (by simp))
    have hnecs : ∀ d ∈ cs, d.text ≠ [] := fun d hd => hne d (by simp [hd])
    refine Or.inr ?_
    rw [takeC, dropC]
    by_cases hk : k ≤ 0
    · rw [if_pos hk, if_neg (by omega), if_pos hk]
      simp
    · rw [if_neg hk]
      by_cases hkL : k < (c.text.length : Int)
      · rw [if_pos hkL]; simp
      · rw [if_neg hkL]; simp

/-- Splitting a normalized list of nonempty chunks chunkwise at any position
and rejoining gives the list back. -/
theorem join_takeC_dropC : ∀ (s : AttributedText α) (k : Int), Sep s →
    (∀ c ∈ s, c.text ≠ []) → joinChunks (takeC k s ++ dropC k s) = s
  | [], _, _, _ => rfl
  | c :: cs, k, hsep, hne => by
    have hL : 0 < (c.text.length : Int) := length_pos_of_ne_nil (hne c (by simp))
    have hnecs : ∀ d ∈ cs, d.text ≠ [] := fun d hd => hne d (by simp [hd])
    rw [takeC, dropC]
    by_cases hk : k ≤ 0
    · rw [if_pos hk, if_neg (by omega), if_pos hk, dropC_nonpos cs hnecs (by omega)]
      simpa using joinChunks_sep hsep
    · rw [if_neg hk]
      by_cases hkL : k < (c.text.length : Int)
      · rw [if_pos hkL, if_neg (by omega), if_neg (by omega),
          dropC_nonpos cs hnecs (by omega)]
        have hj : Chunk.join (⟨c.text.take k.toNat, c.attributes⟩ : Chunk α)
            ⟨c.text.drop k.toNat, c.attributes⟩ =
            some ⟨c.text, c.attributes⟩ := by
          simp [Chunk.join, List.take_append_drop]
        show joinLoop (⟨c.text.take k.toNat, c.attributes⟩ : Chunk α)
          (⟨c.text.drop k.toNat, c.attributes⟩ :: cs) = c :: cs
        rw [joinLoop_cons_eq, hj]
        exact joinLoop_sep hsep
      · rw [if_neg hkL, if_pos (by omega)]
        have ih := join_takeC_dropC cs (k - c.text.length) hsep.tail hnecs
        show joinLoop c (takeC (k - (c.text.length : Int)) cs ++
          dropC (k - (c.text.length : Int)) cs) = c :: cs
        match hrest : takeC (k - (c.text.length : Int)) cs ++
            dropC (k - (c.text.length : Int)) cs with
        | [] =>
          rw [hrest] at ih
          have hcs : cs = [] := by simpa [joinChunks] using ih.symm
          subst hcs
          rfl
        | d :: ds =>
          rw [hrest] at ih
          rcases concat_head_attr cs (k - c.text.length) hnecs with ⟨hnil, _⟩ | hhead
          · rw [hrest] at hnil; exact absurd hnil (by simp)
          · rw [hrest] at hhead
            match cs, hsep, ih, hhead with
            | e :: es, hsep, ih, hhead =>
              have hde : d.attributes = e.attributes := by
                simp only [List.head?, Option.map] at hhead
                exact Option.some.inj hhead
              have hce : c.attributes ≠ e.attributes := by
                cases hsep with | cons hne' _ => exact hne'
              rw [joinLoop_cons_eq]
              simp only [Chunk.join, if_neg (show c.attributes ≠ d.attributes by
                rw [hde]; exact hce)]
              have : joinLoop d ds = e :: es := ih
              rw [this]

theorem atGetItem_zero_eq_takeC (s : AttributedText α) (k : Int) (hk : 0 ≤ k)
    (hsep : Sep s) (hne : ∀ c ∈ s, c.text ≠ []) :
    atGetItem s (some 0) (some k) = takeC k s := by
  have hslice : atSlice s (some 0) (some k) = sliceGo 0 k s := by
    simp [atSlice, not_lt.mpr hk]
  have hSepT := (takeC_sep s k hsep).1
  unfold atGetItem fromChunks
  rw [hslice, sliceGo_eq_takeC s 0 k le_rfl hne, joinChunks_sep hSepT,
    joinChunks_sep hSepT]

theorem atGetItem_from_eq_dropC (s : AttributedText α) (k : Int) (hk : 0 ≤ k)
    (hsep : Sep s) (hne : ∀ c ∈ s, c.text ≠ []) :
    atGetItem s (some k) none = dropC k s := by
  have hslice : atSlice s (some k) none = sliceGo k (atLength s) s := by
    simp [atSlice, not_lt.mpr hk]
  have hSepD := dropC_sep s k hsep hne
  unfold atGetItem fromChunks
  rw [hslice, sliceGo_eq_dropC s k (atLength s) le_rfl hne, joinChunks_sep hSepD,
    joinChunks_sep hSepD]

/-- C9 (amended): for every styled text s whose chunks are all nonempty (the
original claim fails when s contains an empty chunk, such as the value the
AttributedText constructor builds from the empty string) and every integer
k at least 0, the concatenation of the slices s[0:k] and s[k:] has the same
length as s and is structurally equal to s. The hypothesis Sep s states the
normal form every value reachable through the AttributedText class has: all
chunk lists are built by from_chunks, which never leaves two adjacent chunks
with equal attribute maps. -/
theorem c9_slice_concat_amended (s : AttributedText α) (k : Int) (hk : 0 ≤ k)
    (hsep : Sep s) (hne : ∀ c ∈ s, c.text ≠ []) :
    atLength (atAdd (atGetItem s (some 0) (some k)) (atGetItem s (some k) none)) =
      atLength s ∧
    atAdd (atGetItem s (some 0) (some k)) (atGetItem s (some k) none) = s := by
  have main : atAdd (atGetItem s (some 0) (some k)) (atGetItem s (some k) none) = s := by
    rw [atGetItem_zero_eq_takeC s k hk hsep hne, atGetItem_from_eq_dropC s k hk hsep hne]
    unfold atAdd fromChunks
    exact join_takeC_dropC s k hsep hne
  exact ⟨by rw [main], main⟩

/-- A value with a single empty chunk: what the AttributedText constructor
returns for the empty string. Its attribute map is rendered here as the
token 0 of a two-element attribute type. -/
def c9EmptyText : AttributedText Nat := [⟨[], 0⟩]

/-- C9 is false as stated: for the styled text built from the empty string
(one empty chunk) and k = 0, the concatenation of the two slices is the
empty chunk list, which is not structurally equal to the original value
(slicing drops the empty chunk, compare the source remark about removing
empty chunks in join_chunks). -/
theorem c9_counterexample :
    ¬ (atLength (atAdd (atGetItem c9EmptyText (some 0) (some 0))
          (atGetItem c9EmptyText (some 0) none)) = atLength c9EmptyText ∧
        atAdd (atGetItem c9EmptyText (some 0) (some 0))
          (atGetItem c9EmptyText (some 0) none) = c9EmptyText) := by
  decide

/-- A concrete normalized styled text with two nonempty chunks. -/
def c9WitnessText : AttributedText Nat := [⟨['a'], 0⟩, ⟨['b', 'c'], 1⟩]

/-- Witness for C9 (amended) on a two chunk styled text and k = 2. -/
theorem c9_slice_concat_amended_witness :
    atLength (atAdd (atGetItem c9WitnessText (some 0) (some 2))
        (atGetItem c9WitnessText (some 2) none)) = atLength c9WitnessText ∧
    atAdd (atGetItem c9WitnessText (some 0) (some 2))
        (atGetItem c9WitnessText (some 2) none) = c9WitnessText :=
  c9_slice_concat_amended c9WitnessText 2 (by decide)
    (Sep.cons (by decide) (Sep.single _)) (by decide)

/-! Text-level lemmas: the character content of the chunk operations. -/

theorem atText_joinLoop (cur : Chunk α) : ∀ (l : List (Chunk α)),
    atText (joinLoop cur l) = cur.text ++ atText l
  | [] => by simp [joinLoop, atText]
  | c :: cs => by
    rw [joinLoop_cons_eq]
    unfold Chunk.join
    by_cases h : cur.attributes = c.attributes
    · rw [if_pos h]
      show atText (joinLoop _ cs) = _
      rw [atText_joinLoop _ cs]
      simp [atText]
    · rw [if_neg h]
      show atText (cur :: joinLoop c cs) = _
      have : atText (cur :: joinLoop c cs) = cur.text ++ atText (joinLoop c cs) := by
        simp [atText]
      rw [this, atText_joinLoop c cs]
      simp [atText]

theorem atText_joinChunks (l : List (Chunk α)) : atText (joinChunks l) = atText l := by
  cases l with
  | nil => rfl
  | cons c cs =>
    show atText (joinLoop c cs) = _
    rw [atText_joinLoop]
    simp [atText]

theorem atText_append (s t : AttributedText α) : atText (s ++ t) = atText s ++ atText t := by
  simp [atText]

theorem atText_atAdd (s t : AttributedText α) : atText (atAdd s t) = atText s ++ atText t := by
  unfold atAdd fromChunks
  rw [atText_joinChunks, atText_append]

theorem atText_AT (l : List Char) (a : α) : atText (AT l a) = l := by
  simp [atText, AT]

theorem atLength_eq_length_atText (s : AttributedText α) :
    atLength s = (atText s).length := by
  induction s with
  | nil => rfl
  | cons c cs ih => simp [atLength, atText] at ih ⊢; omega

theorem atText_nil : atText ([] : AttributedText α) = [] := rfl

theorem atText_cons (c : Chunk α) (cs : AttributedText α) :
    atText (c :: cs) = c.text ++ atText cs := by simp [atText]

/-- The character content of the slice loop is the Python string slice of the
character content, for arbitrary integer bounds. -/
theorem atText_sliceGo : ∀ (s : AttributedText α) (a b : Int),
    atText (sliceGo a b s) = ((atText s).take b.toNat).drop a.toNat
  | [], a, b => by simp [sliceGo, atText]
  | c :: cs, a, b => by
    have ih := atText_sliceGo cs (a - c.text.length) (b - c.text.length)
    rw [sliceGo]
    by_cases hskip : b ≤ 0 ∨ a ≥ (c.text.length : Int)
    · rw [if_pos hskip, ih, atText_cons]
      by_cases hb : b ≤ 0
      · have hb0 : b.toNat = 0 := by omega
        have hbL : (b - (c.text.length : Int)).toNat = 0 := by omega
        simp [hb0, hbL]
      · have ha : a ≥ (c.text.length : Int) := by tauto
        rw [List.take_append_eq_append_take, List.drop_append_eq_append_drop]
        by_cases hbL : b ≥ (c.text.length : Int)
        · have e1 : List.drop a.toNat (List.take b.toNat c.text) = [] := by
            apply List.drop_eq_nil_of_le
            simp; omega
          have e2 : b.toNat - c.text.length = (b - (c.text.length : Int)).toNat := by
            omega
          have e3 : a.toNat - (List.take b.toNat c.text).length =
              (a - (c.text.length : Int)).toNat := by
            simp; omega
          rw [e1, e2, e3]; simp
        · have e1 : (b - (c.text.length : Int)).toNat = 0 := by omega
          have e2 : b.toNat - c.text.length = 0 := by omega
          rw [e1, e2]
          simp only [List.take_zero, List.append_nil, List.drop_nil]
          symm
          apply List.drop_eq_nil_of_le
          simp; omega
    · rw [if_neg hskip]
      have hb : 0 < b := by omega
      have haL : a < (c.text.length : Int) := by omega
      by_cases h2 : a < 0 ∧ b > (c.text.length : Int)
      · rw [if_pos h2, atText_cons, ih, atText_cons]
        have ha0 : a.toNat = 0 := by omega
        have haL0 : (a - (c.text.length : Int)).toNat = 0 := by omega
        have e2 : b.toNat - c.text.length = (b - (c.text.length : Int)).toNat := by omega
        have e5 : List.take b.toNat c.text = c.text := List.take_of_length_le (by omega)
        rw [ha0, haL0, List.take_append_eq_append_take, e5, e2]
        simp
      · rw [if_neg h2]
        by_cases h3 : a < 0
        · have hbL : b ≤ (c.text.length : Int) := by omega
          rw [if_pos h3, atText_cons, ih, atText_cons]
          have ha0 : a.toNat = 0 := by omega
          have hrest : (b - (c.text.length : Int)).toNat = 0 := by omega
          have e2 : b.toNat - c.text.length = 0 := by omega
          rw [ha0, hrest, List.take_append_eq_append_take, e2]
          simp
        · rw [if_neg h3]
          by_cases h4 : b > (c.text.length : Int)
          · rw [if_pos h4, atText_cons, ih, atText_cons]
            have e2 : b.toNat - c.text.length = (b - (c.text.length : Int)).toNat := by omega
            have e3 : (a - (c.text.length : Int)).toNat = 0 := by omega
            have e5 : List.take b.toNat c.text = c.text := List.take_of_length_le (by omega)
            rw [e3, List.take_append_eq_append_take, e5, e2,
              List.drop_append_eq_append_drop]
            have e4 : a.toNat - c.text.length = 0 := by omega
            rw [e4]
          · rw [if_neg h4, atText_cons, ih, atText_cons]
            have e2 : b.toNat - c.text.length = 0 := by omega
            have hrest : (b - (c.text.length : Int)).toNat = 0 := by omega
            rw [hrest, List.take_append_eq_append_take, e2]
            simp

/-! Attribute maps as Python dicts over string keys (insertion ordered
association lists; updating an existing key keeps its position, a new key is
appended, matching dict assignment). -/

abbrev AttrMap (β : Type) := List (String × β)

def dget {β : Type} : AttrMap β → String → Option β
  | [], _ => none
  | (k', v) :: r, k => if k' = k then some v else dget r k

def dset {β : Type} : AttrMap β → String → β → AttrMap β
  | [], k, v => [(k, v)]
  | (k', v') :: r, k, v => if k' = k then (k, v) :: r else (k', v') :: dset r k v

variable {β : Type} [DecidableEq β]

/-- Chunk.set from markup.py. -/
def Chunk.set (c : Chunk (AttrMap β)) (name : String) (value : β) : Chunk (AttrMap β) :=
  ⟨c.text, dset c.attributes name value⟩

/-- AttributedText.set with both bounds omitted: apply Chunk.set to every
chunk and renormalize with from_chunks. -/
def atSetAll (s : AttributedText (AttrMap β)) (name : String) (value : β) :
    AttributedText (AttrMap β) :=
  fromChunks (s.map (fun c => c.set name value))

/-- AttributedText.set: the source recurses into the bounded cases by calling
itself with fewer bounds; each such call lands in the branch with both bounds
omitted, which is written out here as atSetAll. -/
def atSet (s : AttributedText (AttrMap β)) (name : String) (value : β)
    (start? stop? : Option Int) : AttributedText (AttrMap β) :=
  match start?, stop? with
  | none, none => atSetAll s name value
  | none, some stop =>
    atAdd (atSetAll (atGetItem s none (some stop)) name value)
      (atGetItem s (some stop) none)
  | some start, none =>
    atAdd (atGetItem s none (some start))
      (atSetAll (atGetItem s (some start) none) name value)
  | some start, some stop =>
    if start > stop then
      let s1 := atAdd (atSetAll (atGetItem s none (some stop)) name value)
        (atGetItem s (some stop) none)
      atAdd (atGetItem s1 none (some start))
        (atSetAll (atGetItem s1 (some start) none) name value)
    else
      atAdd (atAdd (atGetItem s none (some start))
        (atSetAll (atGetItem s (some start) (some stop)) name value))
        (atGetItem s (some stop) none)

theorem atText_map_set (s : AttributedText (AttrMap β)) (name : String) (value : β) :
    atText (s.map (fun c => c.set name value)) = atText s := by
  induction s with
  | nil => rfl
  | cons c cs ih => simp [atText, Chunk.set] at ih ⊢; exact ih

theorem atText_atSetAll (s : AttributedText (AttrMap β)) (name : String) (value : β) :
    atText (atSetAll s name value) = atText s := by
  unfold atSetAll fromChunks
  rw [atText_joinChunks, atText_map_set]

/-- AttributedLines.render_line from attributed_lines.py. A line is a pair of
line-wide attributes and a styled text; the rendered line is exactly width
cells, with the rightmost column reserved for the overflow mark. The source
takes the two special characters as one-character strings (the configuration
validates that each is one cell wide); they are embedded as Char. -/
def render_line (line : AttrMap β × AttributedText (AttrMap β))
    (width horizontal_offset : Int) (offset_char overlap_char : Char) :
    AttributedText (AttrMap β) :=
  let attributes := line.1
  let text := line.2
  let text_width := width - 1
  let start_offset := horizontal_offset
  let end_offset := start_offset + text_width
  let result : AttributedText (AttrMap β) := ATempty
  let result := if start_offset < 0 then
      atAdd result (AT (List.replicate (min text_width (-start_offset)).toNat offset_char) [])
    else result
  let result :=
    if end_offset < 0 then result
    else if end_offset < (atLength text : Int) then
      (if start_offset > 0 then
        atAdd result (atGetItem text (some start_offset) (some end_offset))
      else atAdd result (atGetItem text none (some end_offset)))
    else
      (if start_offset > 0 then atAdd result (atGetItem text (some start_offset) none)
       else atAdd result text)
  let result := if end_offset > (atLength text : Int) then
      atAdd result
        (AT (List.replicate (min text_width (end_offset - atLength text)).toNat offset_char) [])
    else result
  let result := if end_offset < (atLength text : Int) then atAdd result (AT [overlap_char] [])
    else atAdd result (AT [offset_char] [])
  attributes.foldl (fun r kv => atSet r kv.1 kv.2 none none) result

theorem atText_ATempty : atText (ATempty : AttributedText α) = [] := rfl

theorem atText_atGetItem_both (s : AttributedText α) (a b : Int) (ha : 0 ≤ a) (hb : 0 ≤ b) :
    atText (atGetItem s (some a) (some b)) = ((atText s).take b.toNat).drop a.toNat := by
  unfold atGetItem fromChunks
  rw [atText_joinChunks, atText_joinChunks]
  have : atSlice s (some a) (some b) = sliceGo a b s := by
    simp [atSlice, not_lt.mpr ha, not_lt.mpr hb]
  rw [this, atText_sliceGo]

theorem atText_atGetItem_upto (s : AttributedText α) (b : Int) (hb : 0 ≤ b) :
    atText (atGetItem s none (some b)) = (atText s).take b.toNat := by
  unfold atGetItem fromChunks
  rw [atText_joinChunks, atText_joinChunks]
  have : atSlice s none (some b) = sliceGo 0 b s := by
    simp [atSlice, not_lt.mpr hb]
  rw [this, atText_sliceGo]
  simp

theorem atText_atGetItem_from (s : AttributedText α) (a : Int) (ha : 0 ≤ a) :
    atText (atGetItem s (some a) none) = (atText s).drop a.toNat := by
  unfold atGetItem fromChunks
  rw [atText_joinChunks, atText_joinChunks]
  have : atSlice s (some a) none = sliceGo a (atLength s) s := by
    simp [atSlice, not_lt.mpr ha]
  rw [this, atText_sliceGo]
  have : (atLength s : Int).toNat = (atText s).length := by
    rw [atLength_eq_length_atText]; omega
  rw [this, List.take_length]

theorem atText_foldl_set (l : List (String × β)) (r : AttributedText (AttrMap β)) :
    atText (l.foldl (fun r kv => atSet r kv.1 kv.2 none none) r) = atText r := by
  induction l generalizing r with
  | nil => rfl
  | cons kv rest ih =>
    show atText (rest.foldl _ (atSet r kv.1 kv.2 none none)) = _
    rw [ih]
    show atText (atSetAll r kv.1 kv.2) = _
    rw [atText_atSetAll]

/-- C6: render_line always returns a styled text of exactly width cells, and
its last cell is the overflow character exactly when the content extends past
the right edge (offset plus width minus one is less than the text length),
the fill character otherwise. -/
theorem c6_render_line_width_last_cell (line : AttrMap β × AttributedText (AttrMap β))
    (width horizontal_offset : Int) (offset_char overlap_char : Char)
    (hw : 1 ≤ width) :
    atLength (render_line line width horizontal_offset offset_char overlap_char) =
      width.toNat ∧
    (atText (render_line line width horizontal_offset offset_char overlap_char)).getLast? =
      some (if horizontal_offset + (width - 1) < (atLength line.2 : Int) then overlap_char
        else offset_char) := by
  obtain ⟨attributes, text⟩ := line
  have hT : (atLength text : Int) = ((atText text).length : Int) := by
    rw [atLength_eq_length_atText]
  constructor
  · simp only [render_line]
    rw [atLength_eq_length_atText, atText_foldl_set]
    by_cases hen : horizontal_offset + (width - 1) < (atLength text : Int)
    · simp only [if_pos hen,
        if_neg (show ¬ horizontal_offset + (width - 1) > (atLength text : Int) by omega)]
      by_cases he0 : horizontal_offset + (width - 1) < 0
      · have hh : horizontal_offset < 0 := by omega
        simp only [if_pos he0, if_pos hh]
        rw [atText_atAdd, atText_atAdd, atText_AT, atText_AT, atText_ATempty]
        simp only [List.length_append, List.length_replicate, List.length_nil,
          List.length_cons]
        omega
      · simp only [if_neg he0, if_pos hen]
        by_cases hhp : horizontal_offset > 0
        · simp only [if_pos hhp, if_neg (show ¬ horizontal_offset < 0 by omega)]
          rw [atText_atAdd, atText_atAdd, atText_ATempty,
            atText_atGetItem_both text _ _ (by omega) (by omega), atText_AT]
          simp only [List.length_append, List.length_drop, List.length_take,
            List.length_nil, List.length_cons]
          omega
        · by_cases hhn : horizontal_offset < 0
          · simp only [if_neg hhp, if_pos hhn]
            rw [atText_atAdd, atText_atAdd, atText_atAdd, atText_ATempty,
              atText_atGetItem_upto text _ (by omega), atText_AT, atText_AT]
            simp only [List.length_append, List.length_replicate, List.length_take,
              List.length_nil, List.length_cons]
            omega
          · simp only [if_neg hhp, if_neg hhn]
            rw [atText_atAdd, atText_atAdd, atText_ATempty,
              atText_atGetItem_upto text _ (by omega), atText_AT]
            simp only [List.length_append, List.length_take, List.length_nil,
              List.length_cons]
            omega
    · simp only [if_neg hen]
      by_cases hgt : horizontal_offset + (width - 1) > (atLength text : Int)
      · simp only [if_pos hgt,
          if_neg (show ¬ horizontal_offset + (width - 1) < 0 by omega), if_neg hen]
        by_cases hhp : horizontal_offset > 0
        · simp only [if_pos hhp, if_neg (show ¬ horizontal_offset < 0 by omega)]
          rw [atText_atAdd, atText_atAdd, atText_atAdd, atText_ATempty,
            atText_atGetItem_from text _ (by omega), atText_AT, atText_AT]
          simp only [List.length_append, List.length_replicate, List.length_drop,
            List.length_nil, List.length_cons]
          omega
        · by_cases hhn : horizontal_offset < 0
          · simp only [if_neg hhp, if_pos hhn]
            rw [atText_atAdd, atText_atAdd, atText_atAdd, atText_atAdd, atText_ATempty,
              atText_AT, atText_AT, atText_AT]
            simp only [List.length_append, List.length_replicate, List.length_nil,
              List.length_cons]
            omega
          · simp only [if_neg hhp, if_neg hhn]
            rw [atText_atAdd, atText_atAdd, atText_atAdd, atText_ATempty,
              atText_AT, atText_AT]
            simp only [List.length_append, List.length_replicate, List.length_nil,
              List.length_cons]
            omega
      · simp only [if_neg hgt,
          if_neg (show ¬ horizontal_offset + (width - 1) < 0 by omega), if_neg hen]
        by_cases hhp : horizontal_offset > 0
        · simp only [if_pos hhp, if_neg (show ¬ horizontal_offset < 0 by omega)]
          rw [atText_atAdd, atText_atAdd, atText_ATempty,
            atText_atGetItem_from text _ (by omega), atText_AT]
          simp only [List.length_append, List.length_drop, List.length_nil,
            List.length_cons]
          omega
        · by_cases hhn : horizontal_offset < 0
          · simp only [if_neg hhp, if_pos hhn]
            rw [atText_atAdd, atText_atAdd, atText_atAdd, atText_ATempty,
              atText_AT, atText_AT]
            simp only [List.length_append, List.length_replicate, List.length_nil,
              List.length_cons]
            omega
          · simp only [if_neg hhp, if_neg hhn]
            rw [atText_atAdd, atText_atAdd, atText_ATempty, atText_AT]
            simp only [List.length_append, List.length_nil, List.length_cons]
            omega
  · simp only [render_line]
    rw [atText_foldl_set]
    by_cases hen : horizontal_offset + (width - 1) < (atLength text : Int)
    · simp only [if_pos hen]
      rw [atText_atAdd, atText_AT, List.getLast?_concat]
    · simp only [if_neg hen]
      rw [atText_atAdd, atText_AT, List.getLast?_concat]

/-- A concrete line for the render_line witness. -/
def c6WitnessLine : AttrMap Nat × AttributedText (AttrMap Nat) :=
  ([("style", 7)], AT ['h', 'e', 'l', 'l', 'o'] [])

/-- Witness for C6 at width 3, offset 0 on a five character line. -/
theorem c6_render_line_width_last_cell_witness :
    atLength (render_line c6WitnessLine 3 0 ' ' '~') = (3 : Int).toNat ∧
    (atText (render_line c6WitnessLine 3 0 ' ' '~')).getLast? =
      some (if (0 : Int) + (3 - 1) < (atLength c6WitnessLine.2 : Int) then '~' else ' ') :=
  c6_render_line_width_last_cell c6WitnessLine 3 0 ' ' '~' (by decide)

/-! The message supply (src/bowl/element_supply.py). Ids are opaque ordered
hashables in the source; they are embedded as Int (the letter ids of the spec
scenarios appear as 1, 2, 3 in alphabetical order). Python dicts become
insertion-ordered association lists with unique keys, exactly the observable
dict behaviour. Loops over parent chains take a fuel argument since a
hypothetical supply value could contain a parent cycle; every theorem below
either supplies ample fuel for a concrete value or quantifies over it. -/

abbrev Id := Int

/-- A datetime value as the strftime calls of this repository observe it. -/
structure DT where
  year : Nat
  month : Nat
  day : Nat
  hour : Nat
  minute : Nat
  second : Nat
deriving DecidableEq, Repr, Inhabited

/-- A message (src/cheuph/element.py): element fields plus timestamp, nick and
content. -/
structure Msg where
  id : Id
  parent_id : Option Id
  timestamp : DT
  nick : String
  content : String
deriving DecidableEq, Repr, Inhabited

/-- Exceptions and the fuel sentinel. valueError and keyError stand for the
Python exceptions raised by list.remove and dict.pop on a missing value;
noElement is ElementSupplyException; shouldNeverHappen carries the stable
numeric code of the source. -/
inductive Err where
  | noElement (i : Id)
  | valueError
  | keyError
  | shouldNeverHappen (n : Nat)
  | fuelExhausted
deriving DecidableEq, Repr

deriving instance DecidableEq for Except

theorem except_ok_bind {ε δ κ : Type} (a : δ) (f : δ → Except ε κ) :
    (Except.ok a >>= f) = f a := rfl

theorem except_error_bind {ε δ κ : Type} (e : ε) (f : δ → Except ε κ) :
    (Except.error e >>= f) = (Except.error e : Except ε κ) := rfl

theorem except_pure_eq {ε δ : Type} (a : δ) : (pure a : Except ε δ) = Except.ok a := rfl

/-- Python dict lookup on an association list. -/
def dlookup {γ : Type} : List (Id × γ) → Id → Option γ
  | [], _ => none
  | (k', v) :: r, k => if k' = k then some v else dlookup r k

/-- Python dict assignment: update an existing key in place, append a new
key. -/
def dinsert {γ : Type} : List (Id × γ) → Id → γ → List (Id × γ)
  | [], k, v => [(k, v)]
  | (k', v') :: r, k, v => if k' = k then (k, v) :: r else (k', v') :: dinsert r k v

/-- Python dict pop of an existing key. -/
def dpopKey {γ : Type} : List (Id × γ) → Id → List (Id × γ)
  | [], _ => []
  | (k', v') :: r, k => if k' = k then r else (k', v') :: dpopKey r k

/-- Python list.sort on ids (ascending). Insertion sort is extensionally the
sort the source performs: on a linearly ordered type a sorted permutation is
unique. -/
def pysort (l : List Id) : List Id := List.insertionSort (· ≤ ·) l

/-- Python list comparison (lexicographic, a strict prefix is smaller). -/
def pyListLt : List Id → List Id → Bool
  | [], [] => false
  | [], _ :: _ => true
  | _ :: _, [] => false
  | x :: xs, y :: ys => if x < y then true else if y < x then false else pyListLt xs ys

/-- InMemorySupply state: elements and children dicts. -/
structure Supply where
  elements : List (Id × Msg)
  children : List (Id × List Id)
deriving DecidableEq, Repr, Inhabited

namespace Supply

/-- InMemorySupply.get: raises ElementSupplyException for an unknown id. -/
def sGet (s : Supply) (elem_id : Id) : Except Err Msg :=
  match dlookup s.elements elem_id with
  | some e => .ok e
  | none => .error (.noElement elem_id)

/-- InMemorySupply.child_ids: get first (to throw for an unknown id), then the
children list, defaulting to the empty list. -/
def child_ids (s : Supply) (elem_id : Id) : Except Err (List Id) := do
  let _ ← sGet s elem_id
  pure ((dlookup s.children elem_id).getD [])

/-- InMemorySupply.parent_id. -/
def parent_id (s : Supply) (elem_id : Id) : Except Err (Option Id) := do
  let e ← sGet s elem_id
  pure e.parent_id

/-- The private roots helper: ids of elements whose parent_id is None,
sorted ascending. -/
def roots (s : Supply) : List Id :=
  pysort (s.elements.filterMap (fun p => if p.2.parent_id = none then some p.1 else none))

/-- InMemorySupply.sibling_ids. -/
def sibling_ids (s : Supply) (elem_id : Id) : Except Err (List Id) := do
  let p ← parent_id s elem_id
  match p with
  | none => pure (roots s)
  | some pid => child_ids s pid

/-- InMemorySupply.lowest_root_id: the last (largest) root, if any. -/
def lowest_root_id (s : Supply) : Option Id := (roots s).getLast?

/-- ElementSupply.previous_id: the sibling just above, None when first or when
list.index raises ValueError (the id is not among its own siblings). -/
def previous_id (s : Supply) (elem_id : Id) : Except Err (Option Id) := do
  let sib ← sibling_ids s elem_id
  match sib.findIdx? (fun y => y = elem_id) with
  | none => pure none
  | some index =>
    if index ≤ 0 then pure none
    else match sib.get? (index - 1) with
      | some v => pure (some v)
      | none => .error .keyError

/-- ElementSupply.next_id: the sibling just below, None when last. -/
def next_id (s : Supply) (elem_id : Id) : Except Err (Option Id) := do
  let sib ← sibling_ids s elem_id
  match sib.findIdx? (fun y => y = elem_id) with
  | none => pure none
  | some index =>
    if index ≥ sib.length - 1 then pure none
    else match sib.get? (index + 1) with
      | some v => pure (some v)
      | none => .error .keyError

/-- ElementSupply.root_id: follow parent_id until absent. -/
def root_id (fuel : Nat) (s : Supply) (elem_id : Id) : Except Err Id :=
  match fuel with
  | 0 => .error .fuelExhausted
  | fuel + 1 => do
    let p ← parent_id s elem_id
    match p with
    | none => pure elem_id
    | some pid => root_id fuel s pid

/-- The ancestor loop of ElementSupply.below_id: walk ancestors seeking a next
sibling. -/
def belowLoop (fuel : Nat) (s : Supply) (ancestor_id : Id) : Except Err (Option Id) :=
  match fuel with
  | 0 => .error .fuelExhausted
  | fuel + 1 => do
    let nx ← next_id s ancestor_id
    match nx with
    | some n => pure (some n)
    | none => do
      let p ← parent_id s ancestor_id
      match p with
      | none => pure none
      | some pid => belowLoop fuel s pid

/-- ElementSupply.below_id: first child, else the ancestor loop. -/
def below_id (fuel : Nat) (s : Supply) (elem_id : Id) : Except Err (Option Id) := do
  let ch ← child_ids s elem_id
  match ch.head? with
  | some c => pure (some c)
  | none => belowLoop fuel s elem_id

/-- The descent loop of ElementSupply.position_below_id: first child chain. -/
def posBelowDescend (fuel : Nat) (s : Supply) (below_id : Id) : Except Err (Option Id) :=
  match fuel with
  | 0 => .error .fuelExhausted
  | fuel + 1 => do
    let ch ← child_ids s below_id
    match ch.head? with
    | some c => posBelowDescend fuel s c
    | none => pure (some below_id)

/-- ElementSupply.position_below_id: the next sibling descended to its first
child chain; else the parent. -/
def position_below_id (fuel : Nat) (s : Supply) (elem_id : Id) : Except Err (Option Id) := do
  let b ← next_id s elem_id
  match b with
  | none => parent_id s elem_id
  | some b0 => posBelowDescend fuel s b0

/-- ElementSupply.ancestor_path: root-first list of ancestors including the
element itself (the source collects child-first and reverses). -/
def ancestor_path (fuel : Nat) (s : Supply) : Option Id → Except Err (List Id)
  | none => pure []
  | some x =>
    match fuel with
    | 0 => .error .fuelExhausted
    | fuel + 1 => do
      let p ← parent_id s x
      let r ← ancestor_path fuel s p
      pure (r ++ [x])

/-- The walk of ElementSupply.between_ids: follow below_id until the stop id
or the bottom, collecting the ids after the start. -/
def betweenLoop (fuel : Nat) (s : Supply) (stop_id : Option Id) (current_id : Id) :
    Except Err (List Id) :=
  match fuel with
  | 0 => .error .fuelExhausted
  | fuel + 1 =>
    if stop_id = some current_id then pure []
    else do
      let b ← below_id fuel s current_id
      match b with
      | none => pure []
      | some nb => do
        let r ← betweenLoop fuel s stop_id nb
        pure (nb :: r)

/-- ElementSupply.between_ids. The source compares the two ancestor paths with
the Python list order and returns the empty list when the start path is the
larger one; comparing an id of the start path against None (a stop path of a
bottom cursor) cannot happen in the calls embedded here. -/
def between_ids (fuel : Nat) (s : Supply) (start_id : Id) (stop_id : Option Id) :
    Except Err (List Id) := do
  let start_path ← ancestor_path fuel s (some start_id)
  let stop_path ← ancestor_path fuel s stop_id
  if pyListLt stop_path start_path then pure []
  else if stop_id = some start_id then pure [start_id]
  else do
    let r ← betweenLoop fuel s stop_id start_id
    pure (start_id :: r)

/-- InMemorySupply.remove. The source looks the children list up under the id
of the element being removed (not under its parent id) and then calls
list.remove with the Element object on a list of ids; no id compares equal to
an Element object, so when the lookup finds a list the call raises
ValueError, and when it does not, the parent's child list keeps the stale
id. -/
def remove (s : Supply) (elem_id : Id) : Except Err Supply :=
  match dlookup s.elements elem_id with
  | none => .ok s
  | some elem =>
    let elements := dpopKey s.elements elem.id
    match elem.parent_id with
    | none => .ok { s with elements := elements }
    | some _ =>
      match dlookup s.children elem.id with
      | none => .ok { s with elements := elements }
      | some _children => .error .valueError

/-- InMemorySupply.add: remove an existing element with the same id first,
store the element, then append the id to the children list of its parent and
sort that list. -/
def add (s : Supply) (elem : Msg) : Except Err Supply := do
  let s ← if (dlookup s.elements elem.id).isSome then remove s elem.id else pure s
  let elements := dinsert s.elements elem.id elem
  match elem.parent_id with
  | none => pure { s with elements := elements }
  | some p =>
    let children := ((dlookup s.children p).getD []) ++ [elem.id]
    let children := pysort children
    pure { elements := elements, children := dinsert s.children p children }

end Supply

/-- InMemoryMessageSupply.remove (src/cheuph/message_supply.py): the source
pops with the Message object as the dict key, but the keys are ids and no key
compares equal to a Message object, so the pop raises KeyError whenever the
message exists; the absent case returns silently. -/
def inMemoryMessageSupplyRemove (messages : List (Id × Msg)) (message_id : Id) :
    Except Err (List (Id × Msg)) :=
  match dlookup messages message_id with
  | none => .ok messages
  | some _message => .error .keyError

theorem dlookup_dinsert_self {γ : Type} : ∀ (m : List (Id × γ)) (k : Id) (v : γ),
    dlookup (dinsert m k v) k = some v
  | [], k, v => by simp [dinsert, dlookup]
  | (k', v') :: r, k, v => by
    by_cases h : k' = k
    · simp [dinsert, dlookup, h]
    · simp [dinsert, dlookup, h]
      exact dlookup_dinsert_self r k v

theorem dlookup_dinsert_ne {γ : Type} : ∀ (m : List (Id × γ)) (k k' : Id) (v : γ),
    k' ≠ k → dlookup (dinsert m k v) k' = dlookup m k'
  | [], k, k', v, hne => by simp [dinsert, dlookup, Ne.symm hne]
  | (k0, v0) :: r, k, k', v, hne => by
    by_cases h : k0 = k
    · subst h
      simp [dinsert, dlookup, Ne.symm hne]
    · simp only [dinsert, if_neg h, dlookup]
      by_cases h' : k0 = k'
      · simp [h']
      · simp [h', dlookup_dinsert_ne r k k' v hne]

theorem mem_pysort (a : Id) (l : List Id) : a ∈ pysort l ↔ a ∈ l :=
  (List.perm_insertionSort (· ≤ ·) l).mem_iff

theorem sorted_pysort (l : List Id) : List.Sorted (· ≤ ·) (pysort l) :=
  List.sorted_insertionSort (· ≤ ·) l

/-- Unique keys: the observable state of a Python dict. -/
abbrev keysNodup {γ : Type} (m : List (Id × γ)) : Prop := (m.map Prod.fst).Nodup

theorem dlookup_of_mem {γ : Type} : ∀ (m : List (Id × γ)), keysNodup m →
    ∀ {i : Id} {x : γ}, (i, x) ∈ m → dlookup m i = some x
  | [], _, _, _, h => by simp at h
  | (k, v) :: r, hnodup, i, x, hmem => by
    have hnd : (k :: r.map Prod.fst).Nodup := hnodup
    rcases List.mem_cons.mp hmem with heq | htail
    · cases heq
      simp [dlookup]
    · have hk : k ≠ i := by
        intro h
        subst h
        exact (List.nodup_cons.mp hnd).1 (List.mem_map.mpr ⟨(k, x), htail, rfl⟩)
      simp [dlookup, hk]
      exact dlookup_of_mem r (List.nodup_cons.mp hnd).2 htail

/-! Concrete supplies for C4 and C5. The letter ids a, b, c of the spec
scenarios are embedded as 1, 2, 3. -/

def dt0 : DT := ⟨2021, 3, 5, 14, 30, 7⟩

def msgA : Msg := ⟨1, none, dt0, "alice", "root message"⟩
def msgB : Msg := ⟨2, some 1, dt0, "bob", "child of a"⟩
def msgC : Msg := ⟨3, some 2, dt0, "carol", "child of b"⟩

/-- Supply holding a root 1 and its child 2, exactly as two add calls build
it. -/
def c4Supply : Supply := ⟨[(1, msgA), (2, msgB)], [(1, [2])]⟩

/-- The same with a grandchild 3 under 2. -/
def c4SupplyDeep : Supply := ⟨[(1, msgA), (2, msgB), (3, msgC)], [(1, [2]), (2, [3])]⟩

/-- C4 is a bug in the code: removing the present child 2 deletes it from the
elements dict but leaves the stale id 2 in the child list of its parent 1
(the source reads the children dict under the id of the removed element
instead of under its parent id); and removing an element that has children
raises ValueError, because list.remove is called with the Element object on a
list of ids. The cheuph variant raises KeyError for every present id, since
it pops the messages dict with the Message object as the key. -/
theorem c4_remove_code_bug :
    (Supply.remove c4Supply 2 = .ok ⟨[(1, msgA)], [(1, [2])]⟩ ∧
      dlookup [(1, msgA)] 2 = none) ∧
    Supply.remove c4SupplyDeep 2 = .error .valueError ∧
    inMemoryMessageSupplyRemove [(1, msgA), (2, msgB)] 2 = .error .keyError := by
  decide

/-- A supply holding only the message 2 whose parent 1 never arrived; the add
call has already recorded 2 under the children key 1. -/
def c5Supply : Supply := ⟨[(2, msgB)], [(1, [2])]⟩

/-- C5 is false as stated: a message with a dangling parent_id is not treated
as a root. It is missing from the root enumeration, lowest_root_id ignores
it, and both root_id and sibling_ids raise ElementSupplyException when they
look the absent parent up. -/
theorem c5_counterexample :
    Supply.lowest_root_id c5Supply = none ∧
    (2 : Id) ∉ Supply.roots c5Supply ∧
    Supply.root_id 10 c5Supply 2 = .error (.noElement 1) ∧
    Supply.sibling_ids c5Supply 2 = .error (.noElement 1) := by
  decide

/-- C5 (amended): in every supply, a stored message whose parent_id names an
id that is not stored is never enumerated as a root (so lowest_root_id never
returns it), and root_id on it raises ElementSupplyException for the missing
parent instead of succeeding. -/
theorem c5_dangling_parent_amended (s : Supply) (i p : Id) (e : Msg) (fuel : Nat)
    (hnodup : keysNodup s.elements)
    (hlook : dlookup s.elements i = some e)
    (hpar : e.parent_id = some p)
    (hmiss : dlookup s.elements p = none) :
    i ∉ Supply.roots s ∧
    Supply.lowest_root_id s ≠ some i ∧
    Supply.root_id (fuel + 2) s i = .error (.noElement p) := by
  have hroots : i ∉ Supply.roots s := by
    intro hmem
    rw [Supply.roots, mem_pysort] at hmem
    obtain ⟨⟨k, m⟩, hkm, hf⟩ := List.mem_filterMap.mp hmem
    by_cases hpn : m.parent_id = none
    · simp [hpn] at hf
      subst hf
      have := dlookup_of_mem s.elements hnodup hkm
      rw [hlook] at this
      cases this
      rw [hpar] at hpn
      cases hpn
    · simp [hpn] at hf
  have hpar1 : Supply.parent_id s i = Except.ok (some p) := by
    rw [Supply.parent_id]
    simp only [Supply.sGet, hlook, except_ok_bind, except_pure_eq, hpar]
  have hpar2 : Supply.parent_id s p = Except.error (Err.noElement p) := by
    rw [Supply.parent_id]
    simp only [Supply.sGet, hmiss, except_error_bind]
  refine ⟨hroots, ?_, ?_⟩
  · intro hlast
    refine hroots ?_
    rw [Supply.lowest_root_id] at hlast
    obtain ⟨h, he⟩ := List.mem_getLast?_eq_getLast (Option.mem_def.mpr hlast)
    exact he ▸ List.getLast_mem h
  · rw [Supply.root_id]
    show (Supply.parent_id s i >>= fun p => match p with
      | none => pure i
      | some pid => Supply.root_id (fuel + 1) s pid) = Except.error (Err.noElement p)
    rw [hpar1, except_ok_bind]
    show Supply.root_id (fuel + 1) s p = Except.error (Err.noElement p)
    rw [Supply.root_id]
    show (Supply.parent_id s p >>= fun q => match q with
      | none => pure p
      | some pid => Supply.root_id fuel s pid) = Except.error (Err.noElement p)
    rw [hpar2, except_error_bind]

/-- Witness for C5 (amended) on the concrete dangling parent supply. -/
theorem c5_dangling_parent_amended_witness :
    (2 : Id) ∉ Supply.roots c5Supply ∧
    Supply.lowest_root_id c5Supply ≠ some 2 ∧
    Supply.root_id (0 + 2) c5Supply 2 = .error (.noElement 1) :=
  c5_dangling_parent_amended c5Supply 2 1 msgB 0 (by decide) (by decide) rfl (by decide)

/-- C10: adding an element whose parent is not yet stored records its id in
the children dict under the absent parent id; child_ids for that parent
raises while the parent is absent; and once the parent itself is added (and
nothing else mutates the supply), child_ids returns an ascending list that
contains the earlier child. -/
theorem c10_add_dangling_parent (s : Supply) (elem parentElem : Msg) (p : Id)
    (hp : elem.parent_id = some p)
    (hin : dlookup s.elements elem.id = none)
    (hpin : dlookup s.elements p = none)
    (hpid : parentElem.id = p)
    (hne : p ≠ elem.id) :
    ∃ s1 l1, Supply.add s elem = .ok s1 ∧
      dlookup s1.children p = some l1 ∧ elem.id ∈ l1 ∧
      Supply.child_ids s1 p = .error (.noElement p) ∧
      ∃ s2 l2, Supply.add s1 parentElem = .ok s2 ∧
        Supply.child_ids s2 p = .ok l2 ∧ elem.id ∈ l2 ∧ List.Sorted (· ≤ ·) l2 := by
  have hskip : (dlookup s.elements elem.id).isSome = false := by rw [hin]; rfl
  set l1 := pysort (((dlookup s.children p).getD []) ++ [elem.id]) with hl1
  set s1 : Supply :=
    ⟨dinsert s.elements elem.id elem, dinsert s.children p l1⟩ with hs1
  have hadd1 : Supply.add s elem = .ok s1 := by
    rw [Supply.add]
    simp [hskip, hp, except_ok_bind, except_pure_eq, hs1, hl1]
  have hlookup1 : dlookup s1.children p = some l1 := dlookup_dinsert_self _ _ _
  have hmem1 : elem.id ∈ l1 := by
    rw [hl1, mem_pysort]
    simp
  have hup : dlookup s1.elements p = none := by
    rw [hs1]
    show dlookup (dinsert s.elements elem.id elem) p = none
    rw [dlookup_dinsert_ne _ _ _ _ hne, hpin]
  have hcid1 : Supply.child_ids s1 p = .error (.noElement p) := by
    simp [Supply.child_ids, Supply.sGet, hup, except_error_bind]
  have hskip2 : (dlookup s1.elements parentElem.id).isSome = false := by
    rw [hpid, hup]; rfl
  refine ⟨s1, l1, hadd1, hlookup1, hmem1, hcid1, ?_⟩
  match hpp : parentElem.parent_id with
  | none =>
    refine ⟨⟨dinsert s1.elements parentElem.id parentElem, s1.children⟩, l1, ?_, ?_, hmem1,
      by rw [hl1]; exact sorted_pysort _⟩
    · rw [Supply.add]
      simp [hskip2, hpp, except_ok_bind, except_pure_eq]
    · simp [Supply.child_ids, Supply.sGet, hpid, dlookup_dinsert_self, except_ok_bind,
        except_pure_eq, hlookup1]
  | some q =>
    by_cases hq : q = p
    · set l2 := pysort (((dlookup s1.children q).getD []) ++ [parentElem.id]) with hl2
      refine ⟨⟨dinsert s1.elements parentElem.id parentElem, dinsert s1.children q l2⟩,
        l2, ?_, ?_, ?_, by rw [hl2]; exact sorted_pysort _⟩
      · rw [Supply.add]
        simp [hskip2, hpp, except_ok_bind, except_pure_eq, hl2]
      · subst hq
        simp [Supply.child_ids, Supply.sGet, hpid, dlookup_dinsert_self, except_ok_bind,
          except_pure_eq]
      · subst hq
        rw [hl2, mem_pysort]
        rw [hlookup1]
        exact List.mem_append_left _ hmem1
    · set l2 := pysort (((dlookup s1.children q).getD []) ++ [parentElem.id]) with hl2
      refine ⟨⟨dinsert s1.elements parentElem.id parentElem, dinsert s1.children q l2⟩,
        l1, ?_, ?_, hmem1, by rw [hl1]; exact sorted_pysort _⟩
      · rw [Supply.add]
        simp [hskip2, hpp, except_ok_bind, except_pure_eq, hl2]
      · simp [Supply.child_ids, Supply.sGet, hpid, dlookup_dinsert_self, except_ok_bind,
          except_pure_eq, dlookup_dinsert_ne s1.children q p l2 (Ne.symm hq), hlookup1]


/-- Witness for C10 on the empty supply: 2 (child of the absent 1) is added
first, then its parent 1. -/
theorem c10_add_dangling_parent_witness :
    ∃ s1 l1, Supply.add ⟨[], []⟩ msgB = .ok s1 ∧
      dlookup s1.children 1 = some l1 ∧ msgB.id ∈ l1 ∧
      Supply.child_ids s1 1 = .error (.noElement 1) ∧
      ∃ s2 l2, Supply.add s1 msgA = .ok s2 ∧
        Supply.child_ids s2 1 = .ok l2 ∧ msgB.id ∈ l2 ∧ List.Sorted (· ≤ ·) l2 :=
  c10_add_dangling_parent ⟨[], []⟩ msgB msgA 1 rfl (by decide) (by decide) rfl (by decide)

/-! Attribute values as the renderer stores them (message ids, line offsets,
cursor flags, style tokens). -/

inductive AttrVal where
  | vInt (n : Int)
  | vBool (b : Bool)
  | vStr (s : String)
deriving DecidableEq, Repr

/-- Styled text with dict attributes, the instantiation the renderer works
with. -/
abbrev ATv := AttributedText (AttrMap AttrVal)

/-- A rendered message (src/cheuph/element.py RenderedMessage): id, body
lines, meta prefix. -/
structure RenderedMessage where
  id : Id
  lines : List ATv
  meta : ATv
deriving DecidableEq, Repr, Inhabited

/-- A zero padded two digit strftime field; faithful for the field values the
formats of this repository print (month, day, hour, minute, second, and the
two digit year, all below 100). -/
def pad2 (n : Nat) : List Char :=
  [Char.ofNat (48 + n / 10 % 10), Char.ofNat (48 + n % 10)]

/-- Python str.split on a newline: no collapsing, the empty string yields one
empty part. -/
def splitNl : List Char → List (List Char)
  | [] => [[]]
  | c :: cs =>
    match splitNl cs with
    | [] => [[]]
    | l :: ls => if c = '\n' then [] :: l :: ls else (c :: l) :: ls

/-! The euphoria message formatter (src/cheuph/euphoria/euph_renderer.py).
The east asian width classifier of unicodedata is an external library; it is
embedded as a Char predicate argument (true exactly for the width classes
N, Na, H and A). All concrete inputs in the theorems below are ASCII, where
the classifier is constantly true. -/

def YEAR_WIDTH : Nat := 11
def TIME_WIDTH : Nat := 5
def SECOND_WIDTH : Nat := 3

/-- The constructor arguments of EuphRenderer that the embedded operations
read. The one character configuration strings are embedded as Char. -/
structure EuphRenderer where
  nick : String
  replace_wide_unicode : Bool
  unicode_placeholder : Char
  show_year : Bool
  show_seconds : Bool
  meta_attrs : AttrMap AttrVal
  surround_left : String
  surround_right : String
  surround_attrs : AttrMap AttrVal
  cursor_surround_left : String
  cursor_surround_right : String
  cursor_surround_attrs : AttrMap AttrVal
  cursor_own_nick_attrs : AttrMap AttrVal
  cursor_fill : Char
  cursor_fill_attrs : AttrMap AttrVal
  nick_attrs : AttrMap AttrVal
  own_nick_attrs : AttrMap AttrVal

namespace EuphRenderer

/-- EuphRenderer.meta_width: time width plus one trailing space, plus the
year and second widths when the flags are set. -/
def meta_width (r : EuphRenderer) : Nat :=
  (TIME_WIDTH + 1) + (if r.show_year then YEAR_WIDTH else 0) +
    (if r.show_seconds then SECOND_WIDTH else 0)

/-- The private unicode filter: replace every character outside the normal
width classes by the placeholder. -/
def filter_unicode (r : EuphRenderer) (normalWidth : Char → Bool) (text : List Char) :
    List Char :=
  if !r.replace_wide_unicode then text
  else text.map (fun ch => if normalWidth ch then ch else r.unicode_placeholder)

/-- The private meta formatter: strftime of the concatenated format pieces
(year %y-%m-%d with a trailing space when shown, then %H:%M, then :%S when
shown) with the meta attributes, plus an unattributed space. -/
def render_meta (r : EuphRenderer) (ts : DT) : ATv :=
  let yearText := pad2 (ts.year % 100) ++ ['-'] ++ pad2 ts.month ++ ['-'] ++
    pad2 ts.day ++ [' ']
  let timeText := pad2 ts.hour ++ [':'] ++ pad2 ts.minute
  let secondText := [':'] ++ pad2 ts.second
  let text := (if r.show_year then yearText else []) ++ timeText ++
    (if r.show_seconds then secondText else [])
  atAdd (AT text r.meta_attrs) (AT [' '] [])

/-- EuphRenderer.render_element: meta prefix, framed nick before the first
content line, a blank of the bare nick width before the others. -/
def render_element (r : EuphRenderer) (normalWidth : Char → Bool) (message : Msg)
    (width : Int) : RenderedMessage :=
  let meta := render_meta r message.timestamp
  let left := AT r.surround_left.toList r.surround_attrs
  let nick := AT (filter_unicode r normalWidth message.nick.toList) r.nick_attrs
  let right := AT r.surround_right.toList r.surround_attrs
  let nick_str := atAdd (atAdd (atAdd left nick) right) (AT [' '] [])
  let nick_spaces : ATv := AT (List.replicate (atLength nick) ' ') []
  let content := filter_unicode r normalWidth message.content.toList
  let lines := (splitNl content).enum.map
    (fun p => atAdd (if p.1 = 0 then nick_str else nick_spaces) (AT p.2 []))
  ⟨message.id, lines, meta⟩

/-- EuphRenderer.render_cursor: framed own nick padded to the width with the
cursor fill character. -/
def render_cursor (r : EuphRenderer) (normalWidth : Char → Bool) (width : Int) : ATv :=
  let left := AT r.cursor_surround_left.toList r.cursor_surround_attrs
  let nick := AT (filter_unicode r normalWidth r.nick.toList) r.cursor_own_nick_attrs
  let right := AT r.cursor_surround_right.toList r.cursor_surround_attrs
  let nick_str := atAdd (atAdd left nick) right
  let rest_width := max 0 (width - (atLength nick_str : Int))
  let rest_str := AT (List.replicate rest_width.toNat r.cursor_fill) r.cursor_fill_attrs
  atAdd nick_str rest_str

end EuphRenderer

/-- The EuphRenderer constructor defaults for a given own nick. -/
def euphDefault (nick : String) : EuphRenderer :=
  ⟨nick, true, '�', false, false, [], "[", "]", [], "<", ">", [], [], ' ', [], [], []⟩

/-- The defaults with show_year switched on. -/
def euphYear (nick : String) : EuphRenderer :=
  { euphDefault nick with show_year := true }

/-- The classifier on ASCII input: every character of the concrete inputs
below is in the east asian width class N or Na. -/
def allNormalWidth : Char → Bool := fun _ => true

/-- C7 is a bug in the code: with show_year set, meta_width is 17 (the
YEAR_WIDTH constant is 11), but the meta prefix the formatter actually
produces is 15 characters for every timestamp, because the year format
%y-%m-%d with its trailing space prints 9 characters, not 11. With
show_year off the two numbers agree (6, or 9 with seconds). -/
theorem c7_meta_width_code_bug (ts : DT) :
    EuphRenderer.meta_width (euphYear "me") = 17 ∧
    atLength (EuphRenderer.render_meta (euphYear "me") ts) = 15 ∧
    (17 : Nat) ≠ 15 := by
  refine ⟨by decide, ?_, by decide⟩
  rw [EuphRenderer.render_meta, atLength_eq_length_atText, atText_atAdd, atText_AT,
    atText_AT]
  simp [euphYear, euphDefault, pad2]

/-- The message of the C8 failing input: a two line body. -/
def c8Message : Msg := ⟨5, none, dt0, "bob", "x\ny"⟩

/-- The rendered form of the C8 failing input under the default
configuration. -/
def c8Rendered : RenderedMessage :=
  EuphRenderer.render_element (euphDefault "me") allNormalWidth c8Message 80

/-- C8 is a bug in the code: the first body line starts with the framed nick
prefix of 6 characters, but the second body line starts with only 3 blanks
(the bare nick width), not a blank prefix of the framed width: nick_spaces
is built from len(nick) instead of len(nick_str), losing the surround
characters and the trailing space. (BasicCursorRenderer in
cursor_rendering.py builds the same blank from the framed nick and stays
aligned.) -/
theorem c8_blank_prefix_code_bug :
    c8Rendered.lines.length = 2 ∧
    atText (c8Rendered.lines.getD 0 []) = ("[bob] x").toList ∧
    atText (c8Rendered.lines.getD 1 []) = ("   y").toList ∧
    ¬ ((atText (c8Rendered.lines.getD 1 [])).take 6 = List.replicate 6 ' ') := by
  decide

/-! The line buffer (src/cheuph/attributed_lines.py): an ordered list of
(line attributes, styled text) pairs with a signed vertical offset. -/

/-- One buffer line. -/
abbrev BufLine := AttrMap AttrVal × ATv

structure AttributedLines where
  upper_offset : Int
  lines : List BufLine
deriving DecidableEq, Repr, Inhabited

namespace AttributedLines

/-- The lower offset is computed from the upper offset and the length; for an
empty buffer it is one less than the upper offset. -/
def lower_offset (b : AttributedLines) : Int :=
  b.upper_offset + ((b.lines.length : Int) - 1)

/-- The lower offset setter recomputes the upper offset. -/
def setLower (b : AttributedLines) (v : Int) : AttributedLines :=
  { b with upper_offset := v - ((b.lines.length : Int) - 1) }

def append_above (b : AttributedLines) (attributes : AttrMap AttrVal) (text : ATv) :
    AttributedLines :=
  ⟨b.upper_offset - 1, (attributes, text) :: b.lines⟩

def append_below (b : AttributedLines) (attributes : AttrMap AttrVal) (text : ATv) :
    AttributedLines :=
  { b with lines := b.lines ++ [(attributes, text)] }

/-- Prepend another buffer, ignoring its offsets. -/
def extend_above (b other : AttributedLines) : AttributedLines :=
  ⟨b.upper_offset - other.lines.length, other.lines ++ b.lines⟩

/-- Append another buffer, ignoring its offsets. -/
def extend_below (b other : AttributedLines) : AttributedLines :=
  { b with lines := b.lines ++ other.lines }

/-- The filtering loop of between: keep the lines whose offset lies in the
closed interval. -/
def betweenGo (s e : Int) : Int → List BufLine → List BufLine
  | _, [] => []
  | off, l :: ls =>
    (if s ≤ off ∧ off ≤ e then [l] else []) ++ betweenGo s e (off + 1) ls

/-- AttributedLines.between: keep the lines between the two offsets
inclusive, then set the upper offset to the clamped start and the lower
offset (through its setter) to the clamped end, as the source does in that
order. -/
def between (b : AttributedLines) (start_offset end_offset : Int) : AttributedLines :=
  let kept := betweenGo start_offset end_offset b.upper_offset b.lines
  let al : AttributedLines := ⟨max start_offset b.upper_offset, kept⟩
  setLower al (min end_offset b.lower_offset)

end AttributedLines

theorem betweenGo_length_le (s e : Int) : ∀ (l : List BufLine) (off : Int),
    ((AttributedLines.betweenGo s e off l).length : Int) ≤ max 0 (e + 1 - max s off)
  | [], off => by simp [AttributedLines.betweenGo]
  | x :: xs, off => by
    have ih := betweenGo_length_le s e xs (off + 1)
    rw [AttributedLines.betweenGo]
    by_cases h : s ≤ off ∧ off ≤ e
    · rw [if_pos h]
      simp only [List.length_append, List.length_cons, List.length_nil]
      omega
    · rw [if_neg h]
      simp only [List.length_append, List.length_nil]
      omega

/-- The trimmed buffer between 0 and height minus 1 never has more than
height lines. -/
theorem between_length_le (b : AttributedLines) (height : Int) (hh : 1 ≤ height) :
    ((b.between 0 (height - 1)).lines.length : Int) ≤ height := by
  have := betweenGo_length_le 0 (height - 1) b.lines b.upper_offset
  show ((AttributedLines.betweenGo 0 (height - 1) b.upper_offset b.lines).length : Int) ≤ _
  omega

/-! The cursor tree renderer (src/cheuph/cursor_rendering.py). Its supply
interface is the one of src/bowl/element_supply.py embedded above.

The anchor offset is a Python float. The only operations the renderer
performs on it are constructing it as an integer quotient (line over height
minus one, or the literals 0, 0.5 and 1) and computing round(offset *
(height - 1)) with round half to even; it is therefore embedded as an exact
fraction, which agrees with the float on every value arising in the concrete
runs below (all small dyadic rationals). -/

/-- An unreduced fraction standing for a Python float. -/
structure PyFloat where
  num : Int
  den : Int
deriving DecidableEq, Repr, Inhabited

/-- Python round (banker's rounding, half to even) of n / d for positive d. -/
def roundHalfEven (n d : Int) : Int :=
  let f := Int.fdiv n d
  let r2 := 2 * (n - f * d)
  if r2 < d then f else if r2 > d then f + 1 else if f % 2 = 0 then f else f + 1

/-- CursorTreeRenderer.get_absolute_offset: round(offset * (height - 1)). -/
def get_absolute_offset (offset : PyFloat) (height : Int) : Int :=
  roundHalfEven (offset.num * (height - 1)) offset.den

/-- CursorTreeRenderer.get_relative_offset: 0.5 for heights up to one, else
line / (height - 1). -/
def get_relative_offset (line height : Int) : PyFloat :=
  if height ≤ 1 then ⟨1, 2⟩ else ⟨line, height - 1⟩

/-- The CursorRenderer capability the tree renderer depends on. -/
structure CursorRendererI where
  meta_width : Nat
  render_element : Msg → Int → RenderedMessage
  render_cursor : Int → ATv

/-- BasicCursorRenderer.render_element: meta %H:%M with a space, the nick
framed in brackets with a trailing space before the first content line and a
same width blank before the others. -/
def basicRenderElement (message : Msg) (width : Int) : RenderedMessage :=
  let meta : ATv := AT (pad2 message.timestamp.hour ++ [':'] ++
    pad2 message.timestamp.minute ++ [' ']) []
  let nick : ATv := AT (('[' :: message.nick.toList) ++ (']' :: [' '])) []
  let nick_spaces : ATv := AT (List.replicate (atLength nick) ' ') []
  let lines := (splitNl message.content.toList).enum.map
    (fun p => atAdd (if p.1 = 0 then nick else nick_spaces) (AT p.2 []))
  ⟨message.id, lines, meta⟩

/-- BasicCursorRenderer. -/
def basicRenderer : CursorRendererI :=
  ⟨6, basicRenderElement, fun _width => AT "<cursor>".toList []⟩

/-- The instance state of a CursorTreeRenderer together with its supply and
renderer collaborators. -/
structure RState where
  supply : Supply
  renderer : CursorRendererI
  cache : List (Id × RenderedMessage)
  lines : AttributedLines
  hit_top : Bool
  cursor_id : Option Id
  anchor_id : Option Id
  anchor_offset : PyFloat
  width : Int
  height : Int
  indent_width : Int
  indent : String
  indent_fill : String
  indent_attrs : AttrMap AttrVal
  cursor_indent : String
  cursor_corner : String
  cursor_fill : String
  cursor_indent_attrs : AttrMap AttrVal
  scrolloff : Int

namespace RState

/-- The absolute anchor offset property getter. -/
def absAnchor (st : RState) : Int := get_absolute_offset st.anchor_offset st.height

/-- The absolute anchor offset property setter. -/
def setAbsAnchor (st : RState) (v : Int) : RState :=
  { st with anchor_offset := get_relative_offset v st.height }

/-- The lines property: the stored buffer trimmed to the viewport rows. -/
def linesP (st : RState) : AttributedLines := st.lines.between 0 (st.height - 1)

/-- CursorTreeRenderer._get_rendered_message: serve from the cache, else
fetch the message, render it at the given width and cache the result. -/
def getRenderedMessage (st : RState) (message_id : Id) (width : Int) :
    Except Err (RState × RenderedMessage) :=
  match dlookup st.cache message_id with
  | some cached => .ok (st, cached)
  | none => do
    let message ← Supply.sGet st.supply message_id
    let rendered := st.renderer.render_element message width
    .ok ({ st with cache := dinsert st.cache rendered.id rendered }, rendered)

/-- The line building loop of CursorTreeRenderer._render_message. -/
def buildMessageLines (message_id : Id) (meta meta_spaces indent : ATv)
    (ls : List ATv) : AttributedLines :=
  ls.enum.foldl
    (fun acc p =>
      AttributedLines.append_below acc
        [("mid", AttrVal.vInt message_id), ("offset", AttrVal.vInt p.1)]
        (atAdd (atAdd (if p.1 = 0 then meta else meta_spaces) indent) p.2))
    ⟨0, []⟩

/-- CursorTreeRenderer._render_message. -/
def renderMessageM (st : RState) (message_id : Id) (indent : ATv) :
    Except Err (RState × AttributedLines) := do
  let width := st.width - (atLength indent : Int) - (st.renderer.meta_width : Int)
  let (st, rendered) ← getRenderedMessage st message_id width
  let meta := rendered.meta
  let meta_spaces : ATv := AT (List.replicate (atLength meta) ' ') []
  pure (st, buildMessageLines message_id meta meta_spaces indent rendered.lines)

/-- CursorTreeRenderer._render_cursor. -/
def renderCursorM (st : RState) (indent : ATv) : AttributedLines :=
  let width := st.width - (atLength indent : Int) - (st.renderer.meta_width : Int)
  let meta_spaces : ATv := AT (List.replicate st.renderer.meta_width ' ') []
  AttributedLines.append_below ⟨0, []⟩
    [("cursor", AttrVal.vBool true), ("offset", AttrVal.vInt 0)]
    (atAdd (atAdd meta_spaces indent) (st.renderer.render_cursor width))

/-- CursorTreeRenderer._render_indent. -/
def renderIndent (st : RState) (cursor cursor_line : Bool) : ATv :=
  if st.indent_width < 1 then []
  else
    let (start, fill) : ATv × ATv :=
      if cursor_line then
        (AT st.cursor_corner.toList st.cursor_indent_attrs,
         AT st.cursor_fill.toList st.cursor_indent_attrs)
      else if cursor then
        (AT st.cursor_indent.toList st.cursor_indent_attrs,
         AT st.indent_fill.toList st.indent_attrs)
      else
        (AT st.indent.toList st.indent_attrs,
         AT st.indent_fill.toList st.indent_attrs)
    atAdd start (atMul fill (st.indent_width - (atLength start : Int)))

/-- CursorTreeRenderer._render_subtree and its children loop, phrased as one
fuel indexed recursion: the inl case renders the subtree of one root into
the buffer, the inr case runs the loop over a child list. -/
def renderGo : Nat → RState → AttributedLines → Sum Id (List Id) → ATv →
    Except Err (RState × AttributedLines)
  | 0, _, _, _, _ => .error .fuelExhausted
  | fuel + 1, st, lines, .inl root_id, indent => do
    let lines := if st.anchor_id = some root_id then lines.setLower (-1) else lines
    let cursor : Bool := st.cursor_id = some root_id
    let (st, rendered_lines) ← renderMessageM st root_id indent
    let lines := lines.extend_below rendered_lines
    let extra_indent := renderIndent st cursor false
    let new_indent := atAdd indent extra_indent
    let child_ids ← Supply.child_ids st.supply root_id
    let (st, lines) ← renderGo fuel st lines (.inr child_ids) new_indent
    if cursor then
      let lines := if st.anchor_id = none then lines.setLower (-1) else lines
      let cursor_indent := atAdd indent (renderIndent st false true)
      pure (st, lines.extend_below (renderCursorM st cursor_indent))
    else pure (st, lines)
  | _fuel + 1, st, lines, .inr [], _indent => pure (st, lines)
  | fuel + 1, st, lines, .inr (c :: cs), indent => do
    let (st, lines) ← renderGo fuel st lines (.inl c) indent
    renderGo fuel st lines (.inr cs) indent

/-- CursorTreeRenderer._render_tree. -/
def renderTree (fuel : Nat) (st : RState) (root_id : Id) :
    Except Err (RState × AttributedLines) :=
  renderGo fuel st ⟨0, []⟩ (.inl root_id) []

/-- CursorTreeRenderer._render_tree_containing. -/
def renderTreeContaining (fuel : Nat) (st : RState) (message_id : Id) :
    Except Err (RState × AttributedLines) := do
  let root_id ← Supply.root_id fuel st.supply message_id
  renderTree fuel st root_id

/-- CursorTreeRenderer._expand_upwards_until: extend the buffer with previous
sibling trees until the target upper offset is reached or the supply has no
earlier sibling (hit top). Returns the last rendered id and the hit top
flag. -/
def expandUpwards : Nat → RState → AttributedLines → Id → Int →
    Except Err (RState × AttributedLines × Id × Bool)
  | 0, _, _, _, _ => .error .fuelExhausted
  | fuel + 1, st, lines, last_rendered_id, target_upper_offset => do
    let next ← Supply.previous_id st.supply last_rendered_id
    match next with
    | none => pure (st, lines, last_rendered_id, true)
    | some next_id =>
      if lines.upper_offset ≤ target_upper_offset then
        pure (st, lines, last_rendered_id, false)
      else do
        let (st, tree) ← renderTree fuel st next_id
        expandUpwards fuel st (lines.extend_above tree) next_id target_upper_offset

/-- CursorTreeRenderer._expand_downwards_until: extend the buffer with next
sibling trees until the target lower offset is reached; on hitting the
bottom of the supply, append the bottom cursor when no message holds the
cursor. -/
def expandDownwards : Nat → RState → AttributedLines → Id → Int →
    Except Err (RState × AttributedLines)
  | 0, _, _, _, _ => .error .fuelExhausted
  | fuel + 1, st, lines, last_rendered_id, target_lower_offset => do
    let next ← Supply.next_id st.supply last_rendered_id
    match next with
    | none =>
      pure (st, if st.cursor_id = none then lines.extend_below (renderCursorM st [])
        else lines)
    | some next_id =>
      if lines.lower_offset ≥ target_lower_offset then pure (st, lines)
      else do
        let (st, tree) ← renderTree fuel st next_id
        expandDownwards fuel st (lines.extend_below tree) next_id target_lower_offset

/-- CursorTreeRenderer._render_lines_from_cursor (strategy of the bottom
cursor). -/
def renderLinesFromCursor (fuel : Nat) (st : RState) :
    Except Err (RState × AttributedLines × Int × Bool) :=
  let lines := renderCursorM st []
  let lines := lines.setLower st.absAnchor
  let (delta, lines) :=
    if lines.lower_offset < st.height - 1 then
      (st.height - 1 - lines.lower_offset, lines.setLower (st.height - 1))
    else (0, lines)
  match Supply.lowest_root_id st.supply with
  | none => pure (st, lines, delta, true)
  | some lowest_root_id => do
    let (st, tree) ← renderTree fuel st lowest_root_id
    let lines := lines.extend_above tree
    let (st, lines, _, hit_top) ← expandUpwards fuel st lines lowest_root_id 0
    pure (st, lines, delta, hit_top)

/-- CursorTreeRenderer._render_lines_from_anchor (anchored strategy). -/
def renderLinesFromAnchor (fuel : Nat) (st : RState) (anchor_id : Id) :
    Except Err (RState × AttributedLines × Int × Bool) := do
  let ancestor_id ← Supply.root_id fuel st.supply anchor_id
  let (st, lines) ← renderTree fuel st ancestor_id
  let lines := { lines with upper_offset := lines.upper_offset + st.absAnchor }
  let (st, lines, upper_id, hit_top) ← expandUpwards fuel st lines ancestor_id 0
  let (delta, lines) :=
    if lines.upper_offset > 0 then (0 - lines.upper_offset, { lines with upper_offset := 0 })
    else (0, lines)
  let (st, lines) ← expandDownwards fuel st lines ancestor_id (st.height - 1)
  let (delta, lines) :=
    if lines.lower_offset < st.height - 1 then
      (delta + (st.height - 1) - lines.lower_offset, lines.setLower (st.height - 1))
    else (delta, lines)
  if ¬ hit_top ∧ lines.upper_offset > 0 then do
    let (st, lines, _, hit_top) ← expandUpwards fuel st lines upper_id 0
    pure (st, lines, delta, hit_top)
  else pure (st, lines, delta, hit_top)

/-- CursorTreeRenderer._render_lines: the bottom cursor strategy when neither
a cursor nor an anchor id is set, else the anchored strategy on the anchor
id, falling back to the cursor id. -/
def renderLines (fuel : Nat) (st : RState) :
    Except Err (RState × AttributedLines × Int × Bool) :=
  match st.cursor_id, st.anchor_id with
  | none, none => renderLinesFromCursor fuel st
  | _, some working_id => renderLinesFromAnchor fuel st working_id
  | some working_id, none => renderLinesFromAnchor fuel st working_id

/-- CursorTreeRenderer._render: store the buffer and the hit top flag, return
the correction delta. -/
def renderM (fuel : Nat) (st : RState) : Except Err (RState × Int) := do
  let (st, lines, delta, hit_top) ← renderLines fuel st
  pure ({ st with lines := lines, hit_top := hit_top }, delta)

/-- CursorTreeRenderer.render: invalidate the whole cache when the width
changed, update the dimensions, render. -/
def render (fuel : Nat) (st : RState) (width height : Int) : Except Err RState := do
  let st := if width ≠ st.width then { st with cache := [] } else st
  let st := { st with width := width, height := height }
  let (st, _) ← renderM fuel st
  pure st

/-- CursorTreeRenderer._closest_to_middle. In the defensive branch for an
empty trimmed buffer the source returns the Python int 0 in the id position;
with integer ids that is the id 0. The attrs.get("offset") or 0 idiom maps
a missing key to 0 and keeps an integer value (or on the integer 0 also
gives 0). -/
def closestToMiddle (st : RState) : Option Id × Int :=
  let middle_index := get_absolute_offset ⟨1, 2⟩ st.height
  let lp := st.linesP
  let ls := lp.lines
  if ls.length < 1 then (some 0, middle_index)
  else
    let (attrs, index) : AttrMap AttrVal × Int :=
      if middle_index < lp.upper_offset then ((ls.getD 0 default).1, lp.upper_offset)
      else if middle_index > lp.lower_offset then
        ((ls.getD (ls.length - 1) default).1, lp.lower_offset)
      else ((ls.getD (middle_index - lp.upper_offset).toNat default).1, middle_index)
    let mid : Option Id :=
      match dget attrs "mid" with
      | some (.vInt n) => some n
      | _ => none
    let off : Int :=
      match dget attrs "offset" with
      | some (.vInt n) => n
      | _ => 0
    (mid, index - off)

/-- Python truthiness of an attribute value that may be absent. -/
def attrTruthy : Option AttrVal → Bool
  | none => false
  | some (.vBool b) => b
  | some (.vInt n) => n ≠ 0
  | some (.vStr s) => s ≠ ""

/-- CursorTreeRenderer._find_cursor_on_screen: the index (within the trimmed
buffer, not the offset) of the first line with a truthy cursor attribute. -/
def findCursorOnScreen (st : RState) : Option Nat :=
  st.linesP.lines.findIdx? (fun l => attrTruthy (dget l.1 "cursor"))

/-- CursorTreeRenderer._apply_scrolloff. -/
def applyScrolloff (st : RState) : RState :=
  let offset := st.absAnchor
  let offset := max st.scrolloff offset
  let offset := min (st.height - 1 - st.scrolloff) offset
  st.setAbsAnchor offset

/-- CursorTreeRenderer._focus_on_visible_cursor: when the cursor line is on
screen, drop the anchor id and anchor at the cursor index. -/
def focusOnVisibleCursor (st : RState) : RState × Bool :=
  match st.findCursorOnScreen with
  | some index => (setAbsAnchor { st with anchor_id := none } (index : Int), true)
  | none => (st, false)

/-- The descent loop of CursorTreeRenderer._element_id_above_cursor: follow
last children to the bottom of a subtree. -/
def descendLastChild : Nat → Supply → Id → Except Err Id
  | 0, _, _ => .error .fuelExhausted
  | fuel + 1, s, elem_id => do
    let ch ← Supply.child_ids s elem_id
    match ch.getLast? with
    | some l => descendLastChild fuel s l
    | none => pure elem_id

/-- CursorTreeRenderer._element_id_above_cursor. -/
def elementIdAboveCursor (fuel : Nat) (st : RState) (cursor_id : Option Id) :
    Except Err (Option Id) :=
  match cursor_id with
  | none =>
    match Supply.lowest_root_id st.supply with
    | none => pure none
    | some c => do
      let e ← descendLastChild fuel st.supply c
      pure (some e)
  | some c => do
    let e ← descendLastChild fuel st.supply c
    pure (some e)

/-- CursorTreeRenderer._element_id_below_cursor. -/
def elementIdBelowCursor (fuel : Nat) (st : RState) (cursor_id : Option Id) :
    Except Err (Option Id) := do
  let above ← elementIdAboveCursor fuel st cursor_id
  match above with
  | none => pure none
  | some a => Supply.below_id fuel st.supply a

/-- Python falsiness of an optional id: None and the id 0 are falsy. -/
def pyFalsyOptId : Option Id → Bool
  | none => true
  | some n => n == 0

/-- CursorTreeRenderer._focus_on_offscreen_cursor: drop the anchor id, set
the anchor offset to 0.5 for a falsy closest id (the source keeps running
afterwards), then to 0 or 1 by comparing the ancestor paths of the element
above the cursor and of the middle element. -/
def focusOnOffscreenCursor (fuel : Nat) (st : RState) : Except Err RState := do
  let st := { st with anchor_id := none }
  let closest_id ← elementIdAboveCursor fuel st st.cursor_id
  let st := if pyFalsyOptId closest_id then { st with anchor_offset := ⟨1, 2⟩ } else st
  let (middle_id, _) := closestToMiddle st
  let cursor_ancestor_path ← Supply.ancestor_path fuel st.supply closest_id
  let middle_ancestor_path ← Supply.ancestor_path fuel st.supply middle_id
  pure (if pyListLt cursor_ancestor_path middle_ancestor_path then
    { st with anchor_offset := ⟨0, 1⟩ } else { st with anchor_offset := ⟨1, 1⟩ })

/-- CursorTreeRenderer._focus_on_cursor. -/
def focusOnCursor (fuel : Nat) (st : RState) : Except Err RState := do
  let (st, found) := focusOnVisibleCursor st
  let st ← if found then pure st else focusOnOffscreenCursor fuel st
  pure st.applyScrolloff

/-- CursorTreeRenderer._height_of: sum the cached line counts of the given
ids, rendering the containing tree of an uncached id to populate the
cache. -/
def heightOfGo (fuel : Nat) (st : RState) : List Id → Except Err (RState × Int)
  | [] => pure (st, 0)
  | mid :: rest => do
    let (st, message) ←
      match dlookup st.cache mid with
      | some m => pure (st, m)
      | none => do
        let (st, _) ← renderTreeContaining fuel st mid
        match dlookup st.cache mid with
        | some m => pure (st, m)
        | none => Except.error (Err.shouldNeverHappen 1)
    let (st, h) ← heightOfGo fuel st rest
    pure (st, (message.lines.length : Int) + h)

/-- CursorTreeRenderer.move_cursor_down. -/
def moveCursorDown (fuel : Nat) (st : RState) : Except Err RState :=
  match st.cursor_id with
  | none => focusOnCursor fuel st
  | some cursor_id => do
    let new_cursor_id ← Supply.position_below_id fuel st.supply cursor_id
    let below_old ← elementIdBelowCursor fuel st (some cursor_id)
    let above_new ← elementIdAboveCursor fuel st new_cursor_id
    match above_new with
    | none => .error (.shouldNeverHappen 3)
    | some _ => do
      let (st, height) ←
        match below_old with
        | none => pure (st, (0 : Int))
        | some bo => do
          let between_ids ← Supply.between_ids fuel st.supply bo above_new
          heightOfGo fuel st between_ids
      let st := { st with cursor_id := new_cursor_id }
      let st := st.setAbsAnchor (st.absAnchor + height)
      let (st, _) ← renderM fuel st
      focusOnCursor fuel st

/-- CursorTreeRenderer.scroll: shift the anchor, render, and on a nonzero
correction delta add delta plus the scroll delta again before the second
render; then focus the visible cursor or anchor on the element closest to
the middle. -/
def scroll (fuel : Nat) (st : RState) (scroll_delta : Int) : Except Err RState := do
  let st := st.setAbsAnchor (st.absAnchor + scroll_delta)
  let (st, delta) ← renderM fuel st
  let st ←
    if delta ≠ 0 then do
      let st := st.setAbsAnchor (st.absAnchor + delta + scroll_delta)
      let (st, _) ← renderM fuel st
      pure st
    else pure st
  let (st, found) := focusOnVisibleCursor st
  if found then pure st
  else
    let (closest, offset) := closestToMiddle st
    pure (setAbsAnchor { st with anchor_id := closest } offset)

/-- Modelled from the claim (C3): identical to scroll except that after a
nonzero correction exactly that correction, and nothing more, is added to
the absolute anchor offset before the single additional render. -/
def scrollClaim (fuel : Nat) (st : RState) (scroll_delta : Int) : Except Err RState := do
  let st := st.setAbsAnchor (st.absAnchor + scroll_delta)
  let (st, delta) ← renderM fuel st
  let st ←
    if delta ≠ 0 then do
      let st := st.setAbsAnchor (st.absAnchor + delta)
      let (st, _) ← renderM fuel st
      pure st
    else pure st
  let (st, found) := focusOnVisibleCursor st
  if found then pure st
  else
    let (closest, offset) := closestToMiddle st
    pure (setAbsAnchor { st with anchor_id := closest } offset)

/-- Modelled from the amended claim (C3): scroll adds the scroll delta to the
absolute anchor offset and renders; if that render returns a nonzero
correction, the correction plus the original scroll delta is added to the
absolute anchor offset before the single additional render; finally the
visible cursor is focussed, or the element closest to the middle becomes the
anchor. -/
def scrollAmended (fuel : Nat) (st : RState) (scroll_delta : Int) : Except Err RState := do
  let st := st.setAbsAnchor (st.absAnchor + scroll_delta)
  let (st, delta) ← renderM fuel st
  let st ←
    if delta ≠ 0 then do
      let st := st.setAbsAnchor (st.absAnchor + delta + scroll_delta)
      let (st, _) ← renderM fuel st
      pure st
    else pure st
  let (st, found) := focusOnVisibleCursor st
  if found then pure st
  else
    let (closest, offset) := closestToMiddle st
    pure (setAbsAnchor { st with anchor_id := closest } offset)

end RState

/-! Concrete renderer states for claims C1, C2 and C3. -/

/-- The constructor state of a CursorTreeRenderer over a given supply with
the BasicCursorRenderer and the default configuration. -/
def baseState (supply : Supply) : RState :=
  { supply := supply, renderer := basicRenderer, cache := [], lines := ⟨0, []⟩,
    hit_top := false, cursor_id := none, anchor_id := none, anchor_offset := ⟨1, 2⟩,
    width := 80, height := 40, indent_width := 2, indent := "│", indent_fill := " ",
    indent_attrs := [], cursor_indent := "┃", cursor_corner := "┗", cursor_fill := "━",
    cursor_indent_attrs := [], scrolloff := 3 }

/-- The C1 scenario messages: a (1) is a root, b (2) and c (3) its
children. -/
def c1MsgA : Msg := ⟨1, none, dt0, "a", "ma"⟩
def c1MsgB : Msg := ⟨2, some 1, dt0, "b", "mb"⟩
def c1MsgC : Msg := ⟨3, some 1, dt0, "c", "mc"⟩

def c1Supply : Supply := ⟨[(1, c1MsgA), (2, c1MsgB), (3, c1MsgC)], [(1, [2, 3])]⟩

/-- The C1 state with the cursor on a. -/
def c1StateA : RState := { baseState c1Supply with cursor_id := some 1 }

/-- The C1 state with the cursor on b. -/
def c1StateB : RState := { baseState c1Supply with cursor_id := some 2 }

/-- The cursor id of a successful move, none on an exception. -/
def cursorAfter : Except Err RState → Option (Option Id)
  | .ok st => some st.cursor_id
  | .error _ => none

/-- C1 is false as stated: with the cursor on a, move_cursor_down sets the
cursor directly to None (the bottom cursor), not to b. position_below_id of
a is the parent of a (None) since a has no next sibling; the cursor of a
message sits below its whole subtree, so the cursor of a is already the last
position above the bottom. -/
theorem c1_counterexample :
    cursorAfter (RState.moveCursorDown 100 c1StateA) = some none ∧
    some (none : Option Id) ≠ some (some (2 : Id)) := by
  decide

/-- C1 (amended): with the cursor initially on a, a single move_cursor_down
sets cursor_id to None (the bottom cursor). Starting instead from b,
successive calls set the cursor to c, then to a, then to None (the downward
cursor order is b, c, a, bottom). -/
theorem c1_move_cursor_down_amended :
    cursorAfter (RState.moveCursorDown 100 c1StateA) = some (none : Option Id) ∧
    cursorAfter (RState.moveCursorDown 100 c1StateB) = some (some 3) ∧
    cursorAfter ((RState.moveCursorDown 100 c1StateB).bind
      (RState.moveCursorDown 100)) = some (some 1) ∧
    cursorAfter (((RState.moveCursorDown 100 c1StateB).bind
      (RState.moveCursorDown 100)).bind (RState.moveCursorDown 100)) = some none := by
  decide

/-- C2 is false as stated: rendering the empty supply at width 20 and height
5 leaves a buffer whose trimmed form has exactly one line (the bottom cursor
line), not 5; between only trims, the padding to the full height happens
later in AttributedLines.render through to_size. -/
theorem c2_lines_counterexample :
    (RState.render 100 (baseState ⟨[], []⟩) 20 5).map
      (fun st => st.linesP.lines.length) = .ok 1 ∧
    (1 : Nat) ≠ 5 := by
  decide

/-- C2 (amended): for every renderer state of positive height (in particular
after every render call), the buffer the lines property returns, the stored
buffer trimmed with between(0, height - 1), contains at most height
lines. -/
theorem c2_lines_at_most_height (st : RState) (hh : 1 ≤ st.height) :
    ((RState.linesP st).lines.length : Int) ≤ st.height :=
  between_length_le st.lines st.height hh

/-- Witness for C2 (amended) on the constructor state over the empty
supply. -/
theorem c2_lines_at_most_height_witness :
    ((RState.linesP (baseState ⟨[], []⟩)).lines.length : Int) ≤ (baseState ⟨[], []⟩).height :=
  c2_lines_at_most_height (baseState ⟨[], []⟩) (by decide)

/-- The C3 scenario: five single line root messages. -/
def c3Msg (i : Int) (nick content : String) : Msg := ⟨i, none, dt0, nick, content⟩

def c3Supply : Supply :=
  ⟨[(1, c3Msg 1 "u1" "c1"), (2, c3Msg 2 "u2" "c2"), (3, c3Msg 3 "u3" "c3"),
    (4, c3Msg 4 "u4" "c4"), (5, c3Msg 5 "u5" "c5")], []⟩

/-- The C3 state: cursor on root 2, no anchor id, anchor offset 1.0 (bottom),
viewport 20 by 5. -/
def c3State : RState :=
  { baseState c3Supply with
    cursor_id := some 2
    width := 20
    height := 5
    anchor_offset := ⟨1, 1⟩ }

/-- When the first render of a scroll returns the correction 0, the source
scroll and the claim modelled scroll coincide: the two differ only in how a
nonzero correction is applied back. -/
theorem scroll_eq_scrollClaim_of_zero_delta (fuel : Nat) (st : RState) (sd : Int)
    (st1 : RState)
    (h : RState.renderM fuel (RState.setAbsAnchor st (RState.absAnchor st + sd)) =
      .ok (st1, 0)) :
    RState.scroll fuel st sd = RState.scrollClaim fuel st sd := by
  unfold RState.scroll RState.scrollClaim
  simp [h, except_ok_bind]

/-- C3 is false as stated: scrolling this state by -1 makes the first render
return the correction -1, and the source then adds correction plus scroll
delta (-2 in total), not the correction alone. The difference is observable:
the embedded scroll ends with the anchor offset 1/4 and hit_top false (the
buffer starts at message 2), while the claim modelled scroll (scrollClaim)
ends with the anchor offset 2/4 and hit_top true (the buffer starts at
message 1). -/
theorem c3_scroll_counterexample :
    (RState.scroll 100 c3State (-1)).map (fun st => (st.anchor_offset, st.hit_top)) =
      .ok (⟨1, 4⟩, false) ∧
    (RState.scrollClaim 100 c3State (-1)).map (fun st => (st.anchor_offset, st.hit_top)) =
      .ok (⟨2, 4⟩, true) ∧
    ((⟨1, 4⟩ : PyFloat), false) ≠ ((⟨2, 4⟩ : PyFloat), true) := by
  decide

/-- C3 (amended): scroll adds the scroll delta to the absolute anchor offset
and renders; if that render returns a nonzero correction, the correction
plus the original scroll delta (and nothing else) is added to the absolute
anchor offset before the single additional render. The amended description,
written out as scrollAmended, is exactly what the source scroll does, for
every fuel bound, state and delta. -/
theorem c3_scroll_amended (fuel : Nat) (st : RState) (scroll_delta : Int) :
    RState.scroll fuel st scroll_delta = RState.scrollAmended fuel st scroll_delta := rfl

end BowlSpec
